import Mathlib

/-!
# Verification of the chess rules engine (src/utils/chessEngine.ts)

Shallow embedding of the TypeScript chess engine.  Boards are 8×8 grids of
cells; a cell is empty or holds a piece (color, kind), mirroring the
two-character strings of the source ("wP", "bK", ...; "" = empty).

JavaScript out-of-bounds behaviour is modelled explicitly where it can be
observed: reading `board[r]` with `r` outside [0,8) yields `undefined`, and
indexing into `undefined` throws a TypeError.  Functions that can reach such
a read return `Option`, with `none` standing for the thrown exception.  All
other array reads in the source are guarded by explicit bounds checks and
are embedded with the total lookup `cellAt` (reading a valid row at an
out-of-range column yields `undefined`, which the source only ever tests
for falsiness, i.e. treats like an empty cell).  All board writes performed
by the engine are at in-bounds squares on every path embedded here, so
`setCell` ignores out-of-bounds writes.
-/

inductive PColor where
  | white
  | black
deriving DecidableEq, Repr

inductive PKind where
  | P
  | R
  | N
  | B
  | Q
  | K
deriving DecidableEq, Repr

abbrev Piece := PColor × PKind

/-- A board cell: `none` is the empty string, `some p` a piece. -/
abbrev Cell := Option Piece

/-- Board representation: 2D array, row 0 = black home rank, row 7 = white home rank. -/
abbrev Board := Fin 8 → Fin 8 → Cell

/-- `piece.charAt(0) === 'w'` -/
def PColor.isWhite : PColor → Bool
  | PColor.white => true
  | PColor.black => false

/-- `targetCell && targetCell.charAt(0) !== myColor`: the cell holds an
    enemy piece. -/
def cellEnemy (cl : Cell) (pc : PColor) : Bool :=
  cl.elim false (fun q => decide (q.1 ≠ pc))

/-- In-bounds predicate for a square, `0 <= r && r < 8 && 0 <= c && c < 8`. -/
abbrev inB (r c : Int) : Prop := 0 ≤ r ∧ r < 8 ∧ 0 ≤ c ∧ c < 8

/-- `board[r][c]` for reads whose row index is known in bounds on every
    caller path (an out-of-range column read gives `undefined`, which the
    source only tests for falsiness, so it behaves as an empty cell). -/
def cellAt (b : Board) (r c : Int) : Cell :=
  if h : inB r c then
    b ⟨r.toNat, by obtain ⟨h1, h2, h3, h4⟩ := h; omega⟩
      ⟨c.toNat, by obtain ⟨h1, h2, h3, h4⟩ := h; omega⟩
  else none

/-- `board[r][c] = v`; every write performed by the engine on the paths
    embedded here is at an in-bounds square, so out-of-bounds writes
    (invisible to in-bounds reads in JS) are ignored. -/
def setCell (b : Board) (r c : Int) (v : Cell) : Board :=
  fun i j => if (i : Int) = r ∧ (j : Int) = c then v else b i j

/-- Game state tracking (castling rights). -/
structure GameState where
  canWhiteCastleKingside : Bool
  canWhiteCastleQueenside : Bool
  canBlackCastleKingside : Bool
  canBlackCastleQueenside : Bool
deriving DecidableEq, Repr

def initialGameState : GameState :=
  { canWhiteCastleKingside := true
    canWhiteCastleQueenside := true
    canBlackCastleKingside := true
    canBlackCastleQueenside := true }

/-- Build a board from a list of rows (for concrete test positions). -/
def boardOfList (l : List (List Cell)) : Board :=
  fun r c => ((l.getD r []).getD c none)

/-! ## Raw move generation (`getRawPossibleMoves`) -/

/-- Pawn forward pushes: single push, and the double push from the home rank.
    `if (row + direction >= 0 && row + direction < 8 && !board[row+direction][col]) { push; if (row === startRow && !board[row+2*direction][col]) push; }` -/
def pawnForward (b : Board) (r c d startRow : Int) : List (Int × Int) :=
  if 0 ≤ r + d ∧ r + d < 8 ∧ cellAt b (r + d) c = none then
    (r + d, c) ::
      (if r = startRow ∧ cellAt b (r + 2 * d) c = none then [(r + 2 * d, c)] else [])
  else []

/-- One pawn capture offset.  The source reads
    `board[row + direction][col + offset]` without checking the row bound:
    when `row + direction` is outside [0,8) the outer read is `undefined`
    and the inner index throws (modelled as `none`). -/
def pawnCaptureM (b : Board) (pc : PColor) (r c d off : Int) :
    Option (List (Int × Int)) :=
  if 0 ≤ c + off ∧ c + off < 8 then
    if 0 ≤ r + d ∧ r + d < 8 then
      some (if cellEnemy (cellAt b (r + d) (c + off)) pc then [(r + d, c + off)] else [])
    else none
  else some []

/-- `const direction = isWhite ? -1 : 1` -/
def pawnDir (pc : PColor) : Int := if pc.isWhite then -1 else 1

/-- `const startRow = isWhite ? 6 : 1` -/
def pawnStartRow (pc : PColor) : Int := if pc.isWhite then 6 else 1

/-- All pawn moves for a pawn of color `pc` at `(r, c)`. -/
def pawnMovesM (b : Board) (pc : PColor) (r c : Int) : Option (List (Int × Int)) := do
  let cap1 ← pawnCaptureM b pc r c (pawnDir pc) (-1)
  let cap2 ← pawnCaptureM b pc r c (pawnDir pc) 1
  pure (pawnForward b r c (pawnDir pc) (pawnStartRow pc) ++ cap1 ++ cap2)

/-- One sliding ray: walk from `(r, c)` in direction `(dr, dc)` while in
    bounds; an empty square is pushed and the walk continues, an enemy
    square is pushed and the walk stops, a friendly square stops the walk.
    The fuel 8 always suffices on an 8×8 board. -/
def slideWalk (b : Board) (pc : PColor) (dr dc : Int) :
    Nat → Int → Int → List (Int × Int)
  | 0, _, _ => []
  | fuel + 1, r, c =>
    if inB r c then
      if cellAt b r c = none then
        (r, c) :: slideWalk b pc dr dc fuel (r + dr) (c + dc)
      else if cellEnemy (cellAt b r c) pc then [(r, c)] else []
    else []

def rookDirs : List (Int × Int) := [(0, 1), (1, 0), (0, -1), (-1, 0)]

def bishopDirs : List (Int × Int) := [(1, 1), (1, -1), (-1, -1), (-1, 1)]

/-- Sliding moves along each direction of `dirs`, in order. -/
def slideMoves (b : Board) (pc : PColor) (r c : Int) (dirs : List (Int × Int)) :
    List (Int × Int) :=
  dirs.flatMap (fun dir => slideWalk b pc dir.1 dir.2 8 (r + dir.1) (c + dir.2))

def knightOffsets : List (Int × Int) :=
  [(1, 2), (2, 1), (2, -1), (1, -2), (-1, -2), (-2, -1), (-2, 1), (-1, 2)]

def kingOffsets : List (Int × Int) :=
  [(0, 1), (1, 1), (1, 0), (1, -1), (0, -1), (-1, -1), (-1, 0), (-1, 1)]

/-- Fixed-offset moves (knight and regular king moves): each in-bounds
    destination that is empty or holds an enemy piece
    (`!board[r][c] || board[r][c].charAt(0) !== piece.charAt(0)`). -/
def stepMoves (b : Board) (pc : PColor) (r c : Int) (offs : List (Int × Int)) :
    List (Int × Int) :=
  offs.filterMap (fun o =>
    if inB (r + o.1) (c + o.2) then
      if cellAt b (r + o.1) (c + o.2) = none ∨
          cellEnemy (cellAt b (r + o.1) (c + o.2)) pc = true then
        some (r + o.1, c + o.2)
      else none
    else none)

/-- Moves of one piece kind: the if-chain of the source, with the queen
    taking the rook block followed by the bishop block. -/
def rawMovesOfKind (pc : PColor) (k : PKind) (b : Board) (r c : Int) :
    Option (List (Int × Int)) :=
  match k with
  | PKind.P => pawnMovesM b pc r c
  | PKind.R => some (slideMoves b pc r c rookDirs)
  | PKind.N => some (stepMoves b pc r c knightOffsets)
  | PKind.B => some (slideMoves b pc r c bishopDirs)
  | PKind.Q => some (slideMoves b pc r c rookDirs ++ slideMoves b pc r c bishopDirs)
  | PKind.K => some (stepMoves b pc r c kingOffsets)

/-- `getRawPossibleMoves(row, col, board)`: geometric moves of the piece at
    `(row, col)`, ignoring check-safety and castling (`if (!piece) return []`).
    `none` models the TypeError thrown for a pawn standing on its far rank
    (the capture lookup indexes `board[row + direction]` out of bounds). -/
def getRawPossibleMoves (row col : Fin 8) (b : Board) : Option (List (Int × Int)) :=
  (b row col).elim (some [])
    (fun p => rawMovesOfKind p.1 p.2 b (row : Int) (col : Int))

/-! ## Attack detection, check detection -/

/-- Row-major enumeration of all 64 squares, the iteration order of the
    source double loops. -/
def allSquares : List (Fin 8 × Fin 8) :=
  (List.finRange 8).flatMap (fun r => (List.finRange 8).map (fun c => (r, c)))

/-- The scanning loop of `isSquareUnderAttack`: for each square holding a
    piece of the attacking side, compute its raw moves and stop with `true`
    as soon as one of them hits the target.  A thrown exception inside the
    loop (`none`) aborts the whole scan. -/
def attackScan (tr tc : Int) (b : Board) (byWhite : Bool) :
    List (Fin 8 × Fin 8) → Option Bool
  | [] => some false
  | sq :: rest =>
    (b sq.1 sq.2).elim (attackScan tr tc b byWhite rest) (fun p =>
      if p.1.isWhite = byWhite then
        (getRawPossibleMoves sq.1 sq.2 b).elim none (fun mvs =>
          if (tr, tc) ∈ mvs then some true else attackScan tr tc b byWhite rest)
      else attackScan tr tc b byWhite rest)

/-- `isSquareUnderAttack(row, col, board, byWhite)` -/
def isSquareUnderAttack (tr tc : Int) (b : Board) (byWhite : Bool) : Option Bool :=
  attackScan tr tc b byWhite allSquares

/-- `findKing(board, isWhite)`: first square (row-major) holding the king
    of the requested color, or `null`. -/
def findKing (b : Board) (isWhite : Bool) : Option (Fin 8 × Fin 8) :=
  allSquares.find? (fun sq =>
    decide (b sq.1 sq.2 = some (if isWhite then PColor.white else PColor.black, PKind.K)))

/-- `isKingInCheck(board, isWhiteKing)`; returns `false` when no king of the
    requested color is on the board (`if (!kingPos) return false`). -/
def isKingInCheck (b : Board) (isWhiteKing : Bool) : Option Bool :=
  (findKing b isWhiteKing).elim (some false) (fun sq =>
    isSquareUnderAttack (sq.1 : Int) (sq.2 : Int) b (!isWhiteKing))

/-! ## Legal move generation (`getPossibleMoves`) -/

/-- White kingside castling candidate: the conjunction of guards from the
    source, with the short-circuit evaluation order of `&&` preserved for
    the fallible calls. -/
def whiteKingsideCastle (b : Board) (gs : GameState) : Option (List (Int × Int)) :=
  if gs.canWhiteCastleKingside = true ∧ cellAt b 7 5 = none ∧ cellAt b 7 6 = none ∧
      cellAt b 7 7 = some (PColor.white, PKind.R) then do
    let ch ← isKingInCheck b true
    if ch then pure [] else do
      let a5 ← isSquareUnderAttack 7 5 b false
      if a5 then pure [] else do
        let a6 ← isSquareUnderAttack 7 6 b false
        if a6 then pure [] else pure [((7 : Int), (6 : Int))]
  else pure []

def whiteQueensideCastle (b : Board) (gs : GameState) : Option (List (Int × Int)) :=
  if gs.canWhiteCastleQueenside = true ∧ cellAt b 7 1 = none ∧ cellAt b 7 2 = none ∧
      cellAt b 7 3 = none ∧ cellAt b 7 0 = some (PColor.white, PKind.R) then do
    let ch ← isKingInCheck b true
    if ch then pure [] else do
      let a2 ← isSquareUnderAttack 7 2 b false
      if a2 then pure [] else do
        let a3 ← isSquareUnderAttack 7 3 b false
        if a3 then pure [] else pure [((7 : Int), (2 : Int))]
  else pure []

def blackKingsideCastle (b : Board) (gs : GameState) : Option (List (Int × Int)) :=
  if gs.canBlackCastleKingside = true ∧ cellAt b 0 5 = none ∧ cellAt b 0 6 = none ∧
      cellAt b 0 7 = some (PColor.black, PKind.R) then do
    let ch ← isKingInCheck b false
    if ch then pure [] else do
      let a5 ← isSquareUnderAttack 0 5 b true
      if a5 then pure [] else do
        let a6 ← isSquareUnderAttack 0 6 b true
        if a6 then pure [] else pure [((0 : Int), (6 : Int))]
  else pure []

def blackQueensideCastle (b : Board) (gs : GameState) : Option (List (Int × Int)) :=
  if gs.canBlackCastleQueenside = true ∧ cellAt b 0 1 = none ∧ cellAt b 0 2 = none ∧
      cellAt b 0 3 = none ∧ cellAt b 0 0 = some (PColor.black, PKind.R) then do
    let ch ← isKingInCheck b false
    if ch then pure [] else do
      let a2 ← isSquareUnderAttack 0 2 b true
      if a2 then pure [] else do
        let a3 ← isSquareUnderAttack 0 3 b true
        if a3 then pure [] else pure [((0 : Int), (2 : Int))]
  else pure []

/-- The castling candidates appended for a king
    (nothing for any other piece kind). -/
def castleMoves (p : Piece) (b : Board) (gs : GameState) : Option (List (Int × Int)) :=
  if p.2 = PKind.K then
    if p.1.isWhite then do
      let k ← whiteKingsideCastle b gs
      let q ← whiteQueensideCastle b gs
      pure (k ++ q)
    else do
      let k ← blackKingsideCastle b gs
      let q ← blackQueensideCastle b gs
      pure (k ++ q)
  else pure []

/-- The simulation board of the check filter:
    `testBoard[move.row][move.col] = testBoard[row][col]; testBoard[row][col] = ''`. -/
def testBoardMove (b : Board) (fr fc : Fin 8) (tr tc : Int) : Board :=
  setCell (setCell b tr tc (b fr fc)) (fr : Int) (fc : Int) none

/-- The check filter of `getPossibleMoves`: keep each candidate whose
    simulated application does not leave the mover in check. -/
def filterSafe (fr fc : Fin 8) (b : Board) (isW : Bool) :
    List (Int × Int) → Option (List (Int × Int))
  | [] => some []
  | m :: rest => do
    let ch ← isKingInCheck (testBoardMove b fr fc m.1 m.2) isW
    let tail ← filterSafe fr fc b isW rest
    pure (if ch then tail else m :: tail)

/-- `getPossibleMoves(row, col, board, gameState)`: raw moves, plus castling
    candidates for a king, filtered by the check simulation. -/
def getPossibleMoves (row col : Fin 8) (b : Board) (gs : GameState) :
    Option (List (Int × Int)) :=
  (b row col).elim (some []) (fun p => do
    let raw ← getRawPossibleMoves row col b
    let castle ← castleMoves p b gs
    filterSafe row col b p.1.isWhite (raw ++ castle))

/-! ## State update and move application -/

/-- First section of `updateGameState`: a moving king clears both of that
    side rights, and a recognized castling king move relocates the rook
    on the board. -/
def ugsKingStep (fr fc tc : Int) (piece : Cell) (b : Board) (gs : GameState) :
    Board × GameState :=
  if piece = some (PColor.white, PKind.K) then
    let g := { gs with canWhiteCastleKingside := false, canWhiteCastleQueenside := false }
    if fr = 7 ∧ fc = 4 then
      if tc = 6 then
        (setCell (setCell b 7 5 (cellAt b 7 7)) 7 7 none, g)
      else if tc = 2 then
        (setCell (setCell b 7 3 (cellAt b 7 0)) 7 0 none, g)
      else (b, g)
    else (b, g)
  else if piece = some (PColor.black, PKind.K) then
    let g := { gs with canBlackCastleKingside := false, canBlackCastleQueenside := false }
    if fr = 0 ∧ fc = 4 then
      if tc = 6 then
        (setCell (setCell b 0 5 (cellAt b 0 7)) 0 7 none, g)
      else if tc = 2 then
        (setCell (setCell b 0 3 (cellAt b 0 0)) 0 0 none, g)
      else (b, g)
    else (b, g)
  else (b, gs)

/-- Second section of `updateGameState`: a rook moving off its home square
    clears the matching right. -/
def ugsRookStep (fr fc : Int) (piece : Cell) (gs : GameState) : GameState :=
  if piece = some (PColor.white, PKind.R) then
    if fr = 7 ∧ fc = 0 then { gs with canWhiteCastleQueenside := false }
    else if fr = 7 ∧ fc = 7 then { gs with canWhiteCastleKingside := false }
    else gs
  else if piece = some (PColor.black, PKind.R) then
    if fr = 0 ∧ fc = 0 then { gs with canBlackCastleQueenside := false }
    else if fr = 0 ∧ fc = 7 then { gs with canBlackCastleKingside := false }
    else gs
  else gs

/-- Third section of `updateGameState`: capturing a rook on its home square
    clears the matching right (the target cell is read from the board
    already mutated by the king step, as in the source). -/
def ugsCaptureStep (tr tc : Int) (target : Cell) (gs : GameState) : GameState :=
  if target = some (PColor.white, PKind.R) then
    if tr = 7 ∧ tc = 0 then { gs with canWhiteCastleQueenside := false }
    else if tr = 7 ∧ tc = 7 then { gs with canWhiteCastleKingside := false }
    else gs
  else if target = some (PColor.black, PKind.R) then
    if tr = 0 ∧ tc = 0 then { gs with canBlackCastleQueenside := false }
    else if tr = 0 ∧ tc = 7 then { gs with canBlackCastleKingside := false }
    else gs
  else gs

/-- `updateGameState(fromRow, fromCol, toRow, toCol, board, gameState)`:
    clears castling rights for king and rook moves and for rook captures,
    and relocates the rook of a recognized castling king move (mutating the
    board).  The unguarded reads `board[fromRow][fromCol]` and
    `board[toRow][toCol]` throw for an out-of-range row (`none`). -/
def updateGameState (fr fc tr tc : Int) (b : Board) (gs : GameState) :
    Option (Board × GameState) :=
  if 0 ≤ fr ∧ fr < 8 then
    let piece := cellAt b fr fc
    let s1 := ugsKingStep fr fc tc piece b gs
    let gs2 := ugsRookStep fr fc piece s1.2
    if 0 ≤ tr ∧ tr < 8 then
      some (s1.1, ugsCaptureStep tr tc (cellAt s1.1 tr tc) gs2)
    else none
  else none

/-- Applying a chosen move the way the engine does (makeComputerMove lines
    460-471 and the game component): `updateGameState` first (including its
    castling rook relocation), then overwrite the destination with the
    moving piece and clear the origin. -/
def applyMove (fr fc tr tc : Int) (b : Board) (gs : GameState) :
    Option (Board × GameState) := do
  let res ← updateGameState fr fc tr tc b gs
  let piece := cellAt b fr fc
  pure (setCell (setCell res.1 tr tc piece) fr fc none, res.2)

/-! ## Promotion -/

/-- `canPromotePawn(row, col, board)` -/
def canPromotePawn (r c : Int) (b : Board) : Bool :=
  (cellAt b r c).elim false (fun p =>
    if p.2 = PKind.P then
      (p.1.isWhite && decide (r = 0)) || (!p.1.isWhite && decide (r = 7))
    else false)

/-- `promotePawn(row, col, board, newPiece)`: silently a no-op unless the
    cell holds a pawn; otherwise replaces it by a piece of the same color
    and the requested kind. -/
def promotePawn (r c : Int) (b : Board) (newPiece : PKind) : Board :=
  (cellAt b r c).elim b (fun p =>
    if p.2 = PKind.P then setCell b r c (some (p.1, newPiece)) else b)

/-! ## Computer move -/

/-- One entry of the `blackPieces` array of `makeComputerMove`. -/
structure BlackEntry where
  row : Fin 8
  col : Fin 8
  piece : Piece
  moves : List (Int × Int)
deriving DecidableEq, Repr

instance : Inhabited BlackEntry :=
  ⟨⟨0, 0, (PColor.black, PKind.K), []⟩⟩

/-- The enumeration loop of `makeComputerMove`: every black piece with a
    nonempty legal move list, in row-major order. -/
def collectBlack (b : Board) (gs : GameState) :
    List (Fin 8 × Fin 8) → Option (List BlackEntry)
  | [] => some []
  | sq :: rest =>
    (b sq.1 sq.2).elim (collectBlack b gs rest) (fun p =>
      if p.1.isWhite then collectBlack b gs rest
      else do
        let mvs ← getPossibleMoves sq.1 sq.2 b gs
        let tail ← collectBlack b gs rest
        pure (if mvs = [] then tail else ⟨sq.1, sq.2, p, mvs⟩ :: tail))

/-- `makeComputerMove(board, gameState)`.  The two `Math.random()` draws are
    modelled by the index parameters `i1` (piece) and `i2` (move); the
    source draws satisfy `i1 < blackPieces.length` and
    `i2 < selectedPiece.moves.length`. -/
def makeComputerMove (b : Board) (gs : GameState) (i1 i2 : Nat) :
    Option (Board × GameState) := do
  let bp ← collectBlack b gs allSquares
  if bp = [] then pure (b, gs)
  else
    let sel := bp.getD i1 default
    let mv := sel.moves.getD i2 ((0 : Int), (0 : Int))
    let res ← applyMove (sel.row : Int) (sel.col : Int) mv.1 mv.2 b gs
    let b2 :=
      if canPromotePawn mv.1 mv.2 res.1 then promotePawn mv.1 mv.2 res.1 PKind.Q
      else res.1
    pure (b2, res.2)

/-! ## Heap model of `makeComputerMove` (for the frame property)

The source passes the board and the rights record by reference;
`makeComputerMove` first copies both (`[...board.map(row => [...row])]`,
`{...gameState}`) and performs every mutation — the `updateGameState`
side effects, the piece move, and the auto-promotion — on the fresh copy.
The heap model makes the references explicit: a heap maps references to
values, the fresh copy lives at `freshRef`, and every write targets
`freshRef`. -/

abbrev BoardHeap := Nat → Board

abbrev GSHeap := Nat → GameState

def hset (h : BoardHeap) (r : Nat) (b : Board) : BoardHeap :=
  fun i => if i = r then b else h i

/-- Heap version of `makeComputerMove`: reads the input board at `bref` and
    the input rights at `gref`, allocates the working copy at `freshRef`,
    and returns the final heaps together with the result reference and the
    returned rights value. -/
def makeComputerMoveH (hB : BoardHeap) (hG : GSHeap) (bref gref freshRef : Nat)
    (i1 i2 : Nat) : Option (BoardHeap × GSHeap × Nat × GameState) := do
  -- const newBoard = [...board.map(row => [...row])]
  let h1 := hset hB freshRef (hB bref)
  -- let newGameState = { ...gameState }
  let gs := hG gref
  -- enumeration reads the ORIGINAL board reference
  let bp ← collectBlack (hB bref) gs allSquares
  if bp = [] then pure (h1, hG, freshRef, gs)
  else
    let sel := bp.getD i1 default
    let mv := sel.moves.getD i2 ((0 : Int), (0 : Int))
    -- newGameState = updateGameState(..., newBoard, newGameState): mutates the copy
    let res ← updateGameState (sel.row : Int) (sel.col : Int) mv.1 mv.2 (h1 freshRef) gs
    let h2 := hset h1 freshRef res.1
    -- newBoard[target] = piece; newBoard[from] = ''
    let h3 := hset h2 freshRef
      (setCell (setCell (h2 freshRef) mv.1 mv.2 (some sel.piece))
        (sel.row : Int) (sel.col : Int) none)
    -- auto-promotion to queen on the copy
    let h4 :=
      if canPromotePawn mv.1 mv.2 (h3 freshRef) then
        hset h3 freshRef (promotePawn mv.1 mv.2 (h3 freshRef) PKind.Q)
      else h3
    pure (h4, hG, freshRef, res.2)

/-! ## Concrete positions used by witnesses and counterexamples -/

/-- `initialBoard()`: the standard starting position. -/
def initialBoard : Board :=
  boardOfList
    [[some (PColor.black, PKind.R), some (PColor.black, PKind.N),
      some (PColor.black, PKind.B), some (PColor.black, PKind.Q),
      some (PColor.black, PKind.K), some (PColor.black, PKind.B),
      some (PColor.black, PKind.N), some (PColor.black, PKind.R)],
     List.replicate 8 (some (PColor.black, PKind.P)),
     [], [], [], [],
     List.replicate 8 (some (PColor.white, PKind.P)),
     [some (PColor.white, PKind.R), some (PColor.white, PKind.N),
      some (PColor.white, PKind.B), some (PColor.white, PKind.Q),
      some (PColor.white, PKind.K), some (PColor.white, PKind.B),
      some (PColor.white, PKind.N), some (PColor.white, PKind.R)]]

/-- A rights record with every castling right already cleared. -/
def noRightsGameState : GameState :=
  { canWhiteCastleKingside := false
    canWhiteCastleQueenside := false
    canBlackCastleKingside := false
    canBlackCastleQueenside := false }

def emptyBoard : Board := fun _ _ => none

/-- White king (7,4), white rook (7,7), black pawn (6,7), black king (0,0):
    all five stated kingside-castling conditions hold, yet the black pawn
    guards (7,6) once the king stands there, so the simulation filter
    drops the castling destination. -/
def c2Board : Board :=
  boardOfList
    [[some (PColor.black, PKind.K), none, none, none, none, none, none, none],
     [], [], [], [], [],
     [none, none, none, none, none, none, none, some (PColor.black, PKind.P)],
     [none, none, none, none, some (PColor.white, PKind.K), none, none,
      some (PColor.white, PKind.R)]]

/-- A lone white pawn on its far rank (0,0): querying it makes the source
    read `board[-1][1]`, throwing a TypeError. -/
def c5Board : Board :=
  boardOfList [[some (PColor.white, PKind.P)]]

/-- Black king (0,0) with exactly one legal move (1,0); the white rook on
    (2,1) guards (0,1) and (1,1). -/
def c8Board : Board :=
  boardOfList
    [[some (PColor.black, PKind.K), none, none, none, none, none, none, none],
     [],
     [none, some (PColor.white, PKind.R), none, none, none, none, none, none]]

/-- Tiny position for the C1 witness: white king (7,7), black king (0,0). -/
def c1Board : Board :=
  boardOfList
    [[some (PColor.black, PKind.K), none, none, none, none, none, none, none],
     [], [], [], [], [], [],
     [none, none, none, none, none, none, none, some (PColor.white, PKind.K)]]

/-- The color-`isW` king piece value. -/
def kingPiece (isW : Bool) : Piece :=
  (if isW then PColor.white else PColor.black, PKind.K)

/-- The board holds exactly one king of the given color, at `sq`. -/
def oneKingAt (b : Board) (isW : Bool) (sq : Fin 8 × Fin 8) : Prop :=
  b sq.1 sq.2 = some (kingPiece isW) ∧
  ∀ q : Fin 8 × Fin 8, b q.1 q.2 = some (kingPiece isW) → q = sq

instance (b : Board) (isW : Bool) (sq : Fin 8 × Fin 8) :
    Decidable (oneKingAt b isW sq) := by
  unfold oneKingAt
  infer_instance

/-- The per-bit downward order on castling rights: every right that is
    already cleared in `g` stays cleared in `g2`. -/
def rightsLe (g2 g : GameState) : Prop :=
  (g.canWhiteCastleKingside = false → g2.canWhiteCastleKingside = false) ∧
  (g.canWhiteCastleQueenside = false → g2.canWhiteCastleQueenside = false) ∧
  (g.canBlackCastleKingside = false → g2.canBlackCastleKingside = false) ∧
  (g.canBlackCastleQueenside = false → g2.canBlackCastleQueenside = false)

/-- One `updateGameState` call of a sequence: the move coordinates together
    with the board passed to that call. -/
structure MoveCall where
  fr : Int
  fc : Int
  tr : Int
  tc : Int
  board : Board

/-- The rights produced by one `updateGameState` call of a sequence. -/
def updateRightsCall (gs : GameState) (mc : MoveCall) : Option GameState :=
  (updateGameState mc.fr mc.fc mc.tr mc.tc mc.board gs).map Prod.snd

/-- White king (7,4) with both rooks home and clear ranks: both castling
    destinations are legal. -/
def castleReadyBoard : Board :=
  boardOfList
    [[some (PColor.black, PKind.K), none, none, none, none, none, none, none],
     [], [], [], [], [], [],
     [some (PColor.white, PKind.R), none, none, none, some (PColor.white, PKind.K),
      none, none, some (PColor.white, PKind.R)]]

/-! ## Basic lemmas about cells and squares -/

lemma cellAt_coe (b : Board) (r c : Fin 8) :
    cellAt b (r : Int) (c : Int) = b r c := by
  unfold cellAt
  have hr : (0 : Int) ≤ (r : Int) ∧ (r : Int) < 8 := by
    constructor <;> [positivity; exact_mod_cast r.isLt]
  have hc : (0 : Int) ≤ (c : Int) ∧ (c : Int) < 8 := by
    constructor <;> [positivity; exact_mod_cast c.isLt]
  rw [dif_pos ⟨hr.1, hr.2, hc.1, hc.2⟩]
  congr 1

lemma cellAt_eq_of_inB (b : Board) (r c : Int) (h : inB r c) :
    ∃ (i j : Fin 8), (i : Int) = r ∧ (j : Int) = c ∧ cellAt b r c = b i j := by
  obtain ⟨h1, h2, h3, h4⟩ := h
  refine ⟨⟨r.toNat, by omega⟩, ⟨c.toNat, by omega⟩, ?_, ?_, ?_⟩
  · simp; omega
  · simp; omega
  · unfold cellAt
    rw [dif_pos ⟨h1, h2, h3, h4⟩]

lemma setCell_eval (b : Board) (r c : Int) (v : Cell) (i j : Fin 8) :
    setCell b r c v i j = if (i : Int) = r ∧ (j : Int) = c then v else b i j := rfl

lemma mem_allSquares (p : Fin 8 × Fin 8) : p ∈ allSquares := by
  unfold allSquares
  rw [List.mem_flatMap]
  exact ⟨p.1, List.mem_finRange _, List.mem_map.2 ⟨p.2, List.mem_finRange _, rfl⟩⟩

/-! ## Characterization of the sliding-ray walk -/

lemma slideWalk_mem (b : Board) (pc : PColor) (dr dc : Int) :
    ∀ (fuel : Nat) (r c : Int) (s : Int × Int),
      s ∈ slideWalk b pc dr dc fuel r c ↔
      ∃ k : Nat, k < fuel ∧ s = (r + (k : Int) * dr, c + (k : Int) * dc) ∧
        (∀ j : Nat, j ≤ k → inB (r + (j : Int) * dr) (c + (j : Int) * dc)) ∧
        (∀ j : Nat, j < k → cellAt b (r + (j : Int) * dr) (c + (j : Int) * dc) = none) ∧
        (cellAt b s.1 s.2 = none ∨ cellEnemy (cellAt b s.1 s.2) pc = true) := by
  intro fuel
  induction fuel with
  | zero =>
    intro r c s
    simp [slideWalk]
  | succ n ih =>
    intro r c s
    unfold slideWalk
    by_cases hin : inB r c
    · rw [if_pos hin]
      by_cases hcell : cellAt b r c = none
      · rw [if_pos hcell]
        simp only [List.mem_cons, ih]
        constructor
        · rintro (rfl | ⟨k, hk, hs, hinb, hcells, hlast⟩)
          · refine ⟨0, by omega, by simp, ?_, by omega, ?_⟩
            · intro j hj
              interval_cases j
              simpa using hin
            · simpa using Or.inl hcell
          · refine ⟨k + 1, by omega, ?_, ?_, ?_, hlast⟩
            · rw [hs]
              simp only [Prod.mk.injEq]
              constructor <;> (push_cast; ring)
            · intro j hj
              cases j with
              | zero => simpa using hin
              | succ j =>
                have := hinb j (by omega)
                have e1 : r + (↑(j + 1) : Int) * dr = r + dr + (j : Int) * dr := by
                  push_cast; ring
                have e2 : c + (↑(j + 1) : Int) * dc = c + dc + (j : Int) * dc := by
                  push_cast; ring
                rw [e1, e2]; exact this
            · intro j hj
              cases j with
              | zero => simpa using hcell
              | succ j =>
                have := hcells j (by omega)
                have e1 : r + (↑(j + 1) : Int) * dr = r + dr + (j : Int) * dr := by
                  push_cast; ring
                have e2 : c + (↑(j + 1) : Int) * dc = c + dc + (j : Int) * dc := by
                  push_cast; ring
                rw [e1, e2]; exact this
        · rintro ⟨k, hk, hs, hinb, hcells, hlast⟩
          cases k with
          | zero =>
            left
            rw [hs]; simp
          | succ k =>
            right
            refine ⟨k, by omega, ?_, ?_, ?_, hlast⟩
            · rw [hs]
              simp only [Prod.mk.injEq]
              constructor <;> (push_cast; ring)
            · intro j hj
              have := hinb (j + 1) (by omega)
              have e1 : r + (↑(j + 1) : Int) * dr = r + dr + (j : Int) * dr := by
                push_cast; ring
              have e2 : c + (↑(j + 1) : Int) * dc = c + dc + (j : Int) * dc := by
                push_cast; ring
              rw [e1, e2] at this; exact this
            · intro j hj
              have := hcells (j + 1) (by omega)
              have e1 : r + (↑(j + 1) : Int) * dr = r + dr + (j : Int) * dr := by
                push_cast; ring
              have e2 : c + (↑(j + 1) : Int) * dc = c + dc + (j : Int) * dc := by
                push_cast; ring
              rw [e1, e2] at this; exact this
      · rw [if_neg hcell]
        by_cases hen : cellEnemy (cellAt b r c) pc = true
        · rw [if_pos hen]
          simp only [List.mem_singleton]
          constructor
          · rintro rfl
            refine ⟨0, by omega, by simp, ?_, by omega, ?_⟩
            · intro j hj
              interval_cases j
              simpa using hin
            · simpa using Or.inr hen
          · rintro ⟨k, hk, hs, hinb, hcells, hlast⟩
            cases k with
            | zero => rw [hs]; simp
            | succ k =>
              have := hcells 0 (by omega)
              simp only [Nat.cast_zero, zero_mul, add_zero] at this
              exact absurd this hcell
        · rw [if_neg hen]
          simp only [List.not_mem_nil, false_iff, not_exists]
          rintro k ⟨hk, hs, hinb, hcells, hlast⟩
          cases k with
          | zero =>
            rw [hs] at hlast
            simp only [Nat.cast_zero, zero_mul, add_zero] at hlast
            rcases hlast with h | h
            · exact hcell h
            · exact hen h
          | succ k =>
            have := hcells 0 (by omega)
            simp only [Nat.cast_zero, zero_mul, add_zero] at this
            exact absurd this hcell
    · rw [if_neg hin]
      simp only [List.not_mem_nil, false_iff, not_exists]
      rintro k ⟨hk, hs, hinb, hcells, hlast⟩
      have := hinb 0 (by omega)
      simp only [Nat.cast_zero, zero_mul, add_zero] at this
      exact hin this

/-! ## Characterization of fixed-offset and pawn moves -/

lemma stepMoves_mem (b : Board) (pc : PColor) (r c : Int) (offs : List (Int × Int))
    (s : Int × Int) :
    s ∈ stepMoves b pc r c offs ↔
    ∃ o ∈ offs, s = (r + o.1, c + o.2) ∧ inB (r + o.1) (c + o.2) ∧
      (cellAt b (r + o.1) (c + o.2) = none ∨
        cellEnemy (cellAt b (r + o.1) (c + o.2)) pc = true) := by
  unfold stepMoves
  rw [List.mem_filterMap]
  constructor
  · rintro ⟨o, ho, hf⟩
    by_cases hin : inB (r + o.1) (c + o.2)
    · rw [if_pos hin] at hf
      by_cases hcond : cellAt b (r + o.1) (c + o.2) = none ∨
          cellEnemy (cellAt b (r + o.1) (c + o.2)) pc = true
      · rw [if_pos hcond] at hf
        injection hf with hf
        exact ⟨o, ho, hf.symm, hin, hcond⟩
      · rw [if_neg hcond] at hf
        exact absurd hf (by simp)
    · rw [if_neg hin] at hf
      exact absurd hf (by simp)
  · rintro ⟨o, ho, rfl, hin, hcond⟩
    refine ⟨o, ho, ?_⟩
    rw [if_pos hin, if_pos hcond]

lemma slideMoves_mem (b : Board) (pc : PColor) (r c : Int) (dirs : List (Int × Int))
    (s : Int × Int) :
    s ∈ slideMoves b pc r c dirs ↔
    ∃ dir ∈ dirs, s ∈ slideWalk b pc dir.1 dir.2 8 (r + dir.1) (c + dir.2) := by
  unfold slideMoves
  exact List.mem_flatMap

lemma pawnForward_mem (b : Board) (r c d startRow : Int) (s : Int × Int) :
    s ∈ pawnForward b r c d startRow ↔
    (0 ≤ r + d ∧ r + d < 8 ∧ cellAt b (r + d) c = none) ∧
      (s = (r + d, c) ∨
        (s = (r + 2 * d, c) ∧ r = startRow ∧ cellAt b (r + 2 * d) c = none)) := by
  unfold pawnForward
  split_ifs with h1 h2
  · simp only [List.mem_cons, List.mem_singleton, List.not_mem_nil, or_false]
    constructor
    · rintro (rfl | rfl)
      · exact ⟨h1, Or.inl rfl⟩
      · exact ⟨h1, Or.inr ⟨rfl, h2⟩⟩
    · rintro ⟨-, rfl | ⟨rfl, -⟩⟩
      · exact Or.inl rfl
      · exact Or.inr rfl
  · simp only [List.mem_cons, List.not_mem_nil, or_false]
    constructor
    · rintro rfl
      exact ⟨h1, Or.inl rfl⟩
    · rintro ⟨-, rfl | ⟨rfl, hr, hc⟩⟩
      · rfl
      · exact absurd ⟨hr, hc⟩ h2
  · simp only [List.not_mem_nil, false_iff]
    rintro ⟨h, -⟩
    exact h1 h

lemma pawnCaptureM_mem (b : Board) (pc : PColor) (r c d off : Int)
    (L : List (Int × Int)) (h : pawnCaptureM b pc r c d off = some L) (s : Int × Int) :
    s ∈ L ↔
    s = (r + d, c + off) ∧ (0 ≤ c + off ∧ c + off < 8) ∧ (0 ≤ r + d ∧ r + d < 8) ∧
      cellEnemy (cellAt b (r + d) (c + off)) pc = true := by
  unfold pawnCaptureM at h
  split_ifs at h with h1 h2 hen
  · injection h with h
    subst h
    simp only [List.mem_singleton]
    constructor
    · rintro rfl
      exact ⟨rfl, h1, h2, hen⟩
    · rintro ⟨rfl, -⟩
      rfl
  · injection h with h
    subst h
    simp only [List.not_mem_nil, false_iff]
    rintro ⟨-, -, -, h⟩
    exact hen h
  · injection h with h
    subst h
    simp only [List.not_mem_nil, false_iff]
    rintro ⟨-, hc, -⟩
    exact h1 hc

/-- Whether `pawnCaptureM` throws depends only on the coordinates, not on
    the board. -/
lemma pawnCaptureM_isSome_congr (b b2 : Board) (pc : PColor) (r c d off : Int) :
    (pawnCaptureM b pc r c d off).isSome = (pawnCaptureM b2 pc r c d off).isSome := by
  unfold pawnCaptureM
  split_ifs <;> simp

/-- Membership in a successfully computed pawn move list. -/
lemma pawnMovesM_mem (b : Board) (pc : PColor) (r c : Int) (L : List (Int × Int))
    (h : pawnMovesM b pc r c = some L) (s : Int × Int) :
    s ∈ L ↔
    ((0 ≤ r + pawnDir pc ∧ r + pawnDir pc < 8 ∧ cellAt b (r + pawnDir pc) c = none) ∧
      (s = (r + pawnDir pc, c) ∨
        (s = (r + 2 * pawnDir pc, c) ∧ r = pawnStartRow pc ∧
          cellAt b (r + 2 * pawnDir pc) c = none))) ∨
    (s = (r + pawnDir pc, c + -1) ∧ (0 ≤ c + -1 ∧ c + -1 < 8) ∧
      (0 ≤ r + pawnDir pc ∧ r + pawnDir pc < 8) ∧
      cellEnemy (cellAt b (r + pawnDir pc) (c + -1)) pc = true) ∨
    (s = (r + pawnDir pc, c + 1) ∧ (0 ≤ c + 1 ∧ c + 1 < 8) ∧
      (0 ≤ r + pawnDir pc ∧ r + pawnDir pc < 8) ∧
      cellEnemy (cellAt b (r + pawnDir pc) (c + 1)) pc = true) := by
  unfold pawnMovesM at h
  cases h1 : pawnCaptureM b pc r c (pawnDir pc) (-1) with
  | none => rw [h1] at h; exact absurd h (by simp)
  | some c1 =>
    cases h2 : pawnCaptureM b pc r c (pawnDir pc) 1 with
    | none => rw [h1, h2] at h; exact absurd h (by simp)
    | some c2 =>
      rw [h1, h2] at h
      simp only [Option.bind_eq_bind, Option.some_bind, Option.pure_def,
        Option.some_inj] at h
      subst h
      simp only [List.mem_append]
      rw [pawnForward_mem, pawnCaptureM_mem b pc r c (pawnDir pc) (-1) c1 h1,
        pawnCaptureM_mem b pc r c (pawnDir pc) 1 c2 h2]
      exact or_assoc

/-! ## Raw move lemmas: unfolding, bounds, and the origin square -/

lemma pawnDir_white : pawnDir PColor.white = -1 := rfl

lemma pawnDir_black : pawnDir PColor.black = 1 := rfl

lemma pawnStartRow_white : pawnStartRow PColor.white = 6 := rfl

lemma pawnStartRow_black : pawnStartRow PColor.black = 1 := rfl

lemma fin8_int_bounds (i : Fin 8) : 0 ≤ (i : Int) ∧ (i : Int) < 8 :=
  ⟨by positivity, by exact_mod_cast i.isLt⟩

lemma getRaw_none (row col : Fin 8) (b : Board) (h : b row col = none) :
    getRawPossibleMoves row col b = some [] := by
  simp [getRawPossibleMoves, h]

lemma getRaw_some (row col : Fin 8) (b : Board) (p : Piece) (h : b row col = some p) :
    getRawPossibleMoves row col b = rawMovesOfKind p.1 p.2 b (row : Int) (col : Int) := by
  simp [getRawPossibleMoves, h]

/-- Every square in a successfully generated raw move list is on the board. -/
lemma rawMoves_bounds (row col : Fin 8) (b : Board) (l : List (Int × Int))
    (h : getRawPossibleMoves row col b = some l) :
    ∀ s ∈ l, inB s.1 s.2 := by
  intro s hs
  obtain ⟨hc1, hc2⟩ := fin8_int_bounds col
  obtain ⟨hr1, hr2⟩ := fin8_int_bounds row
  cases hp : b row col with
  | none =>
    rw [getRaw_none row col b hp] at h
    injection h with h
    subst h
    cases hs
  | some p =>
    rw [getRaw_some row col b p hp] at h
    rcases p with ⟨pc, k⟩
    have hslide : ∀ dirs l2, some (slideMoves b pc (row : Int) (col : Int) dirs) = some l2 →
        s ∈ l2 → inB s.1 s.2 := by
      intro dirs l2 h2 hs2
      injection h2 with h2
      subst h2
      rw [slideMoves_mem] at hs2
      obtain ⟨dir, -, hw⟩ := hs2
      rw [slideWalk_mem] at hw
      obtain ⟨kk, -, hskk, hinb, -, -⟩ := hw
      have := hinb kk (le_refl kk)
      rw [hskk]
      exact this
    have hstep : ∀ offs l2, some (stepMoves b pc (row : Int) (col : Int) offs) = some l2 →
        s ∈ l2 → inB s.1 s.2 := by
      intro offs l2 h2 hs2
      injection h2 with h2
      subst h2
      rw [stepMoves_mem] at hs2
      obtain ⟨o, -, hso, hin, -⟩ := hs2
      rw [hso]
      exact hin
    cases k with
    | P =>
      simp only [rawMovesOfKind] at h
      rw [pawnMovesM_mem b pc _ _ l h s] at hs
      rcases hs with ⟨⟨hb1, hb2, -⟩, hf | ⟨hf, hstart, -⟩⟩ |
        ⟨hf, hb, hb2, -⟩ | ⟨hf, hb, hb2, -⟩
      · rw [hf]; exact ⟨hb1, hb2, hc1, hc2⟩
      · rw [hf]
        cases pc <;>
          simp only [pawnDir_white, pawnDir_black, pawnStartRow_white,
            pawnStartRow_black] at hstart ⊢ <;>
          exact ⟨by omega, by omega, hc1, hc2⟩
      · rw [hf]; exact ⟨hb2.1, hb2.2, hb.1, hb.2⟩
      · rw [hf]; exact ⟨hb2.1, hb2.2, hb.1, hb.2⟩
    | R => exact hslide rookDirs l (by simpa [rawMovesOfKind] using h) hs
    | N => exact hstep knightOffsets l (by simpa [rawMovesOfKind] using h) hs
    | B => exact hslide bishopDirs l (by simpa [rawMovesOfKind] using h) hs
    | Q =>
      simp only [rawMovesOfKind, Option.some_inj] at h
      subst h
      rcases List.mem_append.1 hs with hs2 | hs2
      · exact hslide rookDirs _ rfl hs2
      · exact hslide bishopDirs _ rfl hs2
    | K => exact hstep kingOffsets l (by simpa [rawMovesOfKind] using h) hs

/-- A raw move never targets its own origin square. -/
lemma rawMoves_ne_origin (row col : Fin 8) (b : Board) (l : List (Int × Int))
    (h : getRawPossibleMoves row col b = some l) :
    ∀ s ∈ l, s ≠ ((row : Int), (col : Int)) := by
  intro s hs
  cases hp : b row col with
  | none =>
    rw [getRaw_none row col b hp] at h
    injection h with h
    subst h
    cases hs
  | some p =>
    rw [getRaw_some row col b p hp] at h
    rcases p with ⟨pc, k⟩
    have hslide : ∀ dirs l2, (0, 0) ∉ dirs →
        some (slideMoves b pc (row : Int) (col : Int) dirs) = some l2 →
        s ∈ l2 → s ≠ ((row : Int), (col : Int)) := by
      intro dirs l2 h00 h2 hs2
      injection h2 with h2
      subst h2
      rw [slideMoves_mem] at hs2
      obtain ⟨dir, hdir, hw⟩ := hs2
      rw [slideWalk_mem] at hw
      obtain ⟨kk, -, hskk, -, -, -⟩ := hw
      rw [hskk]
      intro hcontra
      rw [Prod.mk.injEq] at hcontra
      obtain ⟨e1, e2⟩ := hcontra
      have f1 : ((kk : Int) + 1) * dir.1 = 0 := by linear_combination e1
      have f2 : ((kk : Int) + 1) * dir.2 = 0 := by linear_combination e2
      have hk1 : ((kk : Int) + 1) ≠ 0 := by positivity
      have g1 : dir.1 = 0 := by
        rcases mul_eq_zero.1 f1 with h | h
        · exact absurd h hk1
        · exact h
      have g2 : dir.2 = 0 := by
        rcases mul_eq_zero.1 f2 with h | h
        · exact absurd h hk1
        · exact h
      apply h00
      have : dir = ((0 : Int), (0 : Int)) := Prod.ext g1 g2
      rw [← this]
      exact hdir
    have hstep : ∀ offs l2, ((0 : Int), (0 : Int)) ∉ offs →
        some (stepMoves b pc (row : Int) (col : Int) offs) = some l2 →
        s ∈ l2 → s ≠ ((row : Int), (col : Int)) := by
      intro offs l2 h00 h2 hs2
      injection h2 with h2
      subst h2
      rw [stepMoves_mem] at hs2
      obtain ⟨o, ho, hso, -, -⟩ := hs2
      rw [hso]
      intro hcontra
      rw [Prod.mk.injEq] at hcontra
      obtain ⟨e1, e2⟩ := hcontra
      apply h00
      have g1 : o.1 = 0 := by linarith
      have g2 : o.2 = 0 := by linarith
      have : o = ((0 : Int), (0 : Int)) := Prod.ext g1 g2
      rw [← this]
      exact ho
    cases k with
    | P =>
      simp only [rawMovesOfKind] at h
      rw [pawnMovesM_mem b pc _ _ l h s] at hs
      have hd : pawnDir pc = -1 ∨ pawnDir pc = 1 := by
        cases pc
        · exact Or.inl pawnDir_white
        · exact Or.inr pawnDir_black
      rcases hs with ⟨-, hf | ⟨hf, -, -⟩⟩ | ⟨hf, -, -, -⟩ | ⟨hf, -, -, -⟩ <;>
        rw [hf] <;> intro hcontra <;> rw [Prod.mk.injEq] at hcontra <;>
        rcases hd with hd | hd <;> omega
    | R => exact hslide rookDirs l (by decide) (by simpa [rawMovesOfKind] using h) hs
    | N => exact hstep knightOffsets l (by decide) (by simpa [rawMovesOfKind] using h) hs
    | B => exact hslide bishopDirs l (by decide) (by simpa [rawMovesOfKind] using h) hs
    | Q =>
      simp only [rawMovesOfKind, Option.some_inj] at h
      subst h
      rcases List.mem_append.1 hs with hs2 | hs2
      · exact hslide rookDirs _ (by decide) rfl hs2
      · exact hslide bishopDirs _ (by decide) rfl hs2
    | K => exact hstep kingOffsets l (by decide) (by simpa [rawMovesOfKind] using h) hs

/-! ## Characterization of the attack scan -/

/-- The scan returns `false` exactly when it runs to completion finding no
    attack: every piece of the attacking color on the scanned squares has a
    successfully computed raw move list that misses the target. -/
lemma attackScan_false_iff (tr tc : Int) (b : Board) (byW : Bool) :
    ∀ l : List (Fin 8 × Fin 8),
      attackScan tr tc b byW l = some false ↔
      ∀ sq ∈ l, ∀ p : Piece, b sq.1 sq.2 = some p → p.1.isWhite = byW →
        ∃ mvs, getRawPossibleMoves sq.1 sq.2 b = some mvs ∧ (tr, tc) ∉ mvs := by
  intro l
  induction l with
  | nil => simp [attackScan]
  | cons sq rest ih =>
    rw [attackScan]
    cases hcell : b sq.1 sq.2 with
    | none =>
      rw [Option.elim_none]
      rw [ih]
      constructor
      · intro hrest q hq p hp hcolor
        rcases List.mem_cons.1 hq with rfl | hq2
        · rw [hcell] at hp; exact absurd hp (by simp)
        · exact hrest q hq2 p hp hcolor
      · intro hall q hq p hp hcolor
        exact hall q (List.mem_cons_of_mem _ hq) p hp hcolor
    | some p =>
      rw [Option.elim_some]
      by_cases hcolor : p.1.isWhite = byW
      · rw [if_pos hcolor]
        cases hraw : getRawPossibleMoves sq.1 sq.2 b with
        | none =>
          rw [Option.elim_none]
          constructor
          · intro hc; exact absurd hc (by simp)
          · intro hall
            obtain ⟨mvs, hmvs, -⟩ := hall sq (List.mem_cons_self _ _) p hcell hcolor
            rw [hraw] at hmvs
            exact absurd hmvs (by simp)
        | some mvs =>
          rw [Option.elim_some]
          by_cases hmem : (tr, tc) ∈ mvs
          · rw [if_pos hmem]
            constructor
            · intro hc; exact absurd hc (by simp)
            · intro hall
              obtain ⟨mvs2, hmvs2, hnot⟩ := hall sq (List.mem_cons_self _ _) p hcell hcolor
              rw [hraw] at hmvs2
              injection hmvs2 with hmvs2
              subst hmvs2
              exact absurd hmem hnot
          · rw [if_neg hmem, ih]
            constructor
            · intro hrest q hq p2 hp2 hcolor2
              rcases List.mem_cons.1 hq with rfl | hq2
              · rw [hcell] at hp2
                injection hp2 with hp2
                subst hp2
                exact ⟨mvs, hraw, hmem⟩
              · exact hrest q hq2 p2 hp2 hcolor2
            · intro hall q hq p2 hp2 hcolor2
              exact hall q (List.mem_cons_of_mem _ hq) p2 hp2 hcolor2
      · rw [if_neg hcolor, ih]
        constructor
        · intro hrest q hq p2 hp2 hcolor2
          rcases List.mem_cons.1 hq with rfl | hq2
          · rw [hcell] at hp2
            injection hp2 with hp2
            subst hp2
            exact absurd hcolor2 hcolor
          · exact hrest q hq2 p2 hp2 hcolor2
        · intro hall q hq p2 hp2 hcolor2
          exact hall q (List.mem_cons_of_mem _ hq) p2 hp2 hcolor2

lemma isSquareUnderAttack_false_iff (tr tc : Int) (b : Board) (byW : Bool) :
    isSquareUnderAttack tr tc b byW = some false ↔
    ∀ sq : Fin 8 × Fin 8, ∀ p : Piece, b sq.1 sq.2 = some p → p.1.isWhite = byW →
      ∃ mvs, getRawPossibleMoves sq.1 sq.2 b = some mvs ∧ (tr, tc) ∉ mvs := by
  unfold isSquareUnderAttack
  rw [attackScan_false_iff]
  constructor
  · intro h sq
    exact h sq (mem_allSquares sq)
  · intro h sq _
    exact h sq

/-! ## findKing with a unique king -/

lemma find?_eq_some_of_unique {α : Type} (p : α → Bool) (l : List α) (a : α)
    (ha : a ∈ l) (hpa : p a = true) (huniq : ∀ x ∈ l, p x = true → x = a) :
    l.find? p = some a := by
  induction l with
  | nil => cases ha
  | cons x xs ih =>
    by_cases hx : p x = true
    · rw [List.find?_cons_of_pos _ hx]
      rw [huniq x (List.mem_cons_self _ _) hx]
    · rw [List.find?_cons_of_neg _ hx]
      rcases List.mem_cons.1 ha with rfl | h2
      · exact absurd hpa hx
      · exact ih h2 (fun y hy hpy => huniq y (List.mem_cons_of_mem _ hy) hpy)

lemma findKing_unique (b : Board) (isW : Bool) (sq : Fin 8 × Fin 8)
    (hsq : b sq.1 sq.2 = some (kingPiece isW))
    (huniq : ∀ q : Fin 8 × Fin 8, b q.1 q.2 = some (kingPiece isW) → q = sq) :
    findKing b isW = some sq := by
  unfold findKing
  apply find?_eq_some_of_unique _ _ sq (mem_allSquares sq)
  · simpa [kingPiece] using hsq
  · intro x _ hx
    exact huniq x (by simpa [kingPiece] using hx)

/-! ## The check filter -/

lemma filterSafe_mem (fr fc : Fin 8) (b : Board) (isW : Bool) :
    ∀ (l out : List (Int × Int)), filterSafe fr fc b isW l = some out →
    ∀ m : Int × Int, m ∈ out ↔
      m ∈ l ∧ isKingInCheck (testBoardMove b fr fc m.1 m.2) isW = some false := by
  intro l
  induction l with
  | nil =>
    intro out h m
    simp only [filterSafe, Option.some_inj] at h
    subst h
    simp
  | cons m0 rest ih =>
    intro out h m
    rw [filterSafe] at h
    cases hch : isKingInCheck (testBoardMove b fr fc m0.1 m0.2) isW with
    | none => rw [hch] at h; exact absurd h (by simp)
    | some ch =>
      rw [hch] at h
      cases htail : filterSafe fr fc b isW rest with
      | none => rw [htail] at h; exact absurd h (by simp)
      | some tail =>
        rw [htail] at h
        simp only [Option.bind_eq_bind, Option.some_bind, Option.pure_def,
          Option.some_inj] at h
        subst h
        cases ch with
        | true =>
          rw [if_pos rfl]
          rw [ih tail htail m]
          constructor
          · rintro ⟨hmr, hsafe⟩
            exact ⟨List.mem_cons_of_mem _ hmr, hsafe⟩
          · rintro ⟨hml, hsafe⟩
            rcases List.mem_cons.1 hml with rfl | h2
            · rw [hsafe] at hch
              exact absurd hch (by simp)
            · exact ⟨h2, hsafe⟩
        | false =>
          simp only [if_neg (by simp : ¬(false = true))]
          rw [List.mem_cons, ih tail htail m]
          constructor
          · rintro (rfl | ⟨hmr, hsafe⟩)
            · exact ⟨List.mem_cons_self _ _, hch⟩
            · exact ⟨List.mem_cons_of_mem _ hmr, hsafe⟩
          · rintro ⟨hml, hsafe⟩
            rcases List.mem_cons.1 hml with rfl | h2
            · exact Or.inl rfl
            · exact Or.inr ⟨h2, hsafe⟩

/-! ## Castling candidate lemmas -/

lemma whiteKingsideCastle_cases (b : Board) (gs : GameState) (L : List (Int × Int))
    (h : whiteKingsideCastle b gs = some L) :
    L = [] ∨
    (L = [((7 : Int), (6 : Int))] ∧ gs.canWhiteCastleKingside = true ∧
      cellAt b 7 5 = none ∧ cellAt b 7 6 = none ∧
      cellAt b 7 7 = some (PColor.white, PKind.R) ∧
      isKingInCheck b true = some false ∧
      isSquareUnderAttack 7 5 b false = some false ∧
      isSquareUnderAttack 7 6 b false = some false) := by
  unfold whiteKingsideCastle at h
  split_ifs at h with hg
  · cases hch : isKingInCheck b true with
    | none => rw [hch] at h; exact absurd h (by simp)
    | some ch =>
      rw [hch] at h
      simp only [Option.bind_eq_bind, Option.some_bind] at h
      cases ch with
      | true =>
        rw [if_pos rfl] at h
        injection h with h
        exact Or.inl h.symm
      | false =>
        rw [if_neg (by simp)] at h
        cases ha5 : isSquareUnderAttack 7 5 b false with
        | none => rw [ha5] at h; exact absurd h (by simp)
        | some a5 =>
          rw [ha5] at h
          simp only [Option.bind_eq_bind, Option.some_bind] at h
          cases a5 with
          | true =>
            rw [if_pos rfl] at h
            injection h with h
            exact Or.inl h.symm
          | false =>
            rw [if_neg (by simp)] at h
            cases ha6 : isSquareUnderAttack 7 6 b false with
            | none => rw [ha6] at h; exact absurd h (by simp)
            | some a6 =>
              rw [ha6] at h
              simp only [Option.bind_eq_bind, Option.some_bind] at h
              cases a6 with
              | true =>
                rw [if_pos rfl] at h
                injection h with h
                exact Or.inl h.symm
              | false =>
                rw [if_neg (by simp)] at h
                injection h with h
                exact Or.inr ⟨h.symm, hg.1, hg.2.1, hg.2.2.1, hg.2.2.2, rfl, rfl, rfl⟩
  · injection h with h
    exact Or.inl h.symm

lemma whiteKingsideCastle_pos (b : Board) (gs : GameState)
    (h1 : gs.canWhiteCastleKingside = true) (h2 : cellAt b 7 5 = none)
    (h3 : cellAt b 7 6 = none) (h4 : cellAt b 7 7 = some (PColor.white, PKind.R))
    (h5 : isKingInCheck b true = some false)
    (h6 : isSquareUnderAttack 7 5 b false = some false)
    (h7 : isSquareUnderAttack 7 6 b false = some false) :
    whiteKingsideCastle b gs = some [((7 : Int), (6 : Int))] := by
  unfold whiteKingsideCastle
  rw [if_pos ⟨h1, h2, h3, h4⟩, h5, h6, h7]
  simp

lemma whiteQueensideCastle_cases (b : Board) (gs : GameState) (L : List (Int × Int))
    (h : whiteQueensideCastle b gs = some L) :
    L = [] ∨
    (L = [((7 : Int), (2 : Int))] ∧ gs.canWhiteCastleQueenside = true ∧
      cellAt b 7 1 = none ∧ cellAt b 7 2 = none ∧ cellAt b 7 3 = none ∧
      cellAt b 7 0 = some (PColor.white, PKind.R) ∧
      isKingInCheck b true = some false ∧
      isSquareUnderAttack 7 2 b false = some false ∧
      isSquareUnderAttack 7 3 b false = some false) := by
  unfold whiteQueensideCastle at h
  split_ifs at h with hg
  · cases hch : isKingInCheck b true with
    | none => rw [hch] at h; exact absurd h (by simp)
    | some ch =>
      rw [hch] at h
      simp only [Option.bind_eq_bind, Option.some_bind] at h
      cases ch with
      | true =>
        rw [if_pos rfl] at h
        injection h with h
        exact Or.inl h.symm
      | false =>
        rw [if_neg (by simp)] at h
        cases ha2 : isSquareUnderAttack 7 2 b false with
        | none => rw [ha2] at h; exact absurd h (by simp)
        | some a2 =>
          rw [ha2] at h
          simp only [Option.bind_eq_bind, Option.some_bind] at h
          cases a2 with
          | true =>
            rw [if_pos rfl] at h
            injection h with h
            exact Or.inl h.symm
          | false =>
            rw [if_neg (by simp)] at h
            cases ha3 : isSquareUnderAttack 7 3 b false with
            | none => rw [ha3] at h; exact absurd h (by simp)
            | some a3 =>
              rw [ha3] at h
              simp only [Option.bind_eq_bind, Option.some_bind] at h
              cases a3 with
              | true =>
                rw [if_pos rfl] at h
                injection h with h
                exact Or.inl h.symm
              | false =>
                rw [if_neg (by simp)] at h
                injection h with h
                exact Or.inr ⟨h.symm, hg.1, hg.2.1, hg.2.2.1, hg.2.2.2.1,
                  hg.2.2.2.2, rfl, rfl, rfl⟩
  · injection h with h
    exact Or.inl h.symm

lemma whiteQueensideCastle_pos (b : Board) (gs : GameState)
    (h1 : gs.canWhiteCastleQueenside = true) (h2 : cellAt b 7 1 = none)
    (h3 : cellAt b 7 2 = none) (h4 : cellAt b 7 3 = none)
    (h5 : cellAt b 7 0 = some (PColor.white, PKind.R))
    (h6 : isKingInCheck b true = some false)
    (h7 : isSquareUnderAttack 7 2 b false = some false)
    (h8 : isSquareUnderAttack 7 3 b false = some false) :
    whiteQueensideCastle b gs = some [((7 : Int), (2 : Int))] := by
  unfold whiteQueensideCastle
  rw [if_pos ⟨h1, h2, h3, h4, h5⟩, h6, h7, h8]
  simp

lemma blackKingsideCastle_cases (b : Board) (gs : GameState) (L : List (Int × Int))
    (h : blackKingsideCastle b gs = some L) :
    L = [] ∨
    (L = [((0 : Int), (6 : Int))] ∧ gs.canBlackCastleKingside = true ∧
      cellAt b 0 5 = none ∧ cellAt b 0 6 = none ∧
      cellAt b 0 7 = some (PColor.black, PKind.R) ∧
      isKingInCheck b false = some false ∧
      isSquareUnderAttack 0 5 b true = some false ∧
      isSquareUnderAttack 0 6 b true = some false) := by
  unfold blackKingsideCastle at h
  split_ifs at h with hg
  · cases hch : isKingInCheck b false with
    | none => rw [hch] at h; exact absurd h (by simp)
    | some ch =>
      rw [hch] at h
      simp only [Option.bind_eq_bind, Option.some_bind] at h
      cases ch with
      | true =>
        rw [if_pos rfl] at h
        injection h with h
        exact Or.inl h.symm
      | false =>
        rw [if_neg (by simp)] at h
        cases ha5 : isSquareUnderAttack 0 5 b true with
        | none => rw [ha5] at h; exact absurd h (by simp)
        | some a5 =>
          rw [ha5] at h
          simp only [Option.bind_eq_bind, Option.some_bind] at h
          cases a5 with
          | true =>
            rw [if_pos rfl] at h
            injection h with h
            exact Or.inl h.symm
          | false =>
            rw [if_neg (by simp)] at h
            cases ha6 : isSquareUnderAttack 0 6 b true with
            | none => rw [ha6] at h; exact absurd h (by simp)
            | some a6 =>
              rw [ha6] at h
              simp only [Option.bind_eq_bind, Option.some_bind] at h
              cases a6 with
              | true =>
                rw [if_pos rfl] at h
                injection h with h
                exact Or.inl h.symm
              | false =>
                rw [if_neg (by simp)] at h
                injection h with h
                exact Or.inr ⟨h.symm, hg.1, hg.2.1, hg.2.2.1, hg.2.2.2, rfl, rfl, rfl⟩
  · injection h with h
    exact Or.inl h.symm

lemma blackKingsideCastle_pos (b : Board) (gs : GameState)
    (h1 : gs.canBlackCastleKingside = true) (h2 : cellAt b 0 5 = none)
    (h3 : cellAt b 0 6 = none) (h4 : cellAt b 0 7 = some (PColor.black, PKind.R))
    (h5 : isKingInCheck b false = some false)
    (h6 : isSquareUnderAttack 0 5 b true = some false)
    (h7 : isSquareUnderAttack 0 6 b true = some false) :
    blackKingsideCastle b gs = some [((0 : Int), (6 : Int))] := by
  unfold blackKingsideCastle
  rw [if_pos ⟨h1, h2, h3, h4⟩, h5, h6, h7]
  simp

lemma blackQueensideCastle_cases (b : Board) (gs : GameState) (L : List (Int × Int))
    (h : blackQueensideCastle b gs = some L) :
    L = [] ∨
    (L = [((0 : Int), (2 : Int))] ∧ gs.canBlackCastleQueenside = true ∧
      cellAt b 0 1 = none ∧ cellAt b 0 2 = none ∧ cellAt b 0 3 = none ∧
      cellAt b 0 0 = some (PColor.black, PKind.R) ∧
      isKingInCheck b false = some false ∧
      isSquareUnderAttack 0 2 b true = some false ∧
      isSquareUnderAttack 0 3 b true = some false) := by
  unfold blackQueensideCastle at h
  split_ifs at h with hg
  · cases hch : isKingInCheck b false with
    | none => rw [hch] at h; exact absurd h (by simp)
    | some ch =>
      rw [hch] at h
      simp only [Option.bind_eq_bind, Option.some_bind] at h
      cases ch with
      | true =>
        rw [if_pos rfl] at h
        injection h with h
        exact Or.inl h.symm
      | false =>
        rw [if_neg (by simp)] at h
        cases ha2 : isSquareUnderAttack 0 2 b true with
        | none => rw [ha2] at h; exact absurd h (by simp)
        | some a2 =>
          rw [ha2] at h
          simp only [Option.bind_eq_bind, Option.some_bind] at h
          cases a2 with
          | true =>
            rw [if_pos rfl] at h
            injection h with h
            exact Or.inl h.symm
          | false =>
            rw [if_neg (by simp)] at h
            cases ha3 : isSquareUnderAttack 0 3 b true with
            | none => rw [ha3] at h; exact absurd h (by simp)
            | some a3 =>
              rw [ha3] at h
              simp only [Option.bind_eq_bind, Option.some_bind] at h
              cases a3 with
              | true =>
                rw [if_pos rfl] at h
                injection h with h
                exact Or.inl h.symm
              | false =>
                rw [if_neg (by simp)] at h
                injection h with h
                exact Or.inr ⟨h.symm, hg.1, hg.2.1, hg.2.2.1, hg.2.2.2.1,
                  hg.2.2.2.2, rfl, rfl, rfl⟩
  · injection h with h
    exact Or.inl h.symm

lemma blackQueensideCastle_pos (b : Board) (gs : GameState)
    (h1 : gs.canBlackCastleQueenside = true) (h2 : cellAt b 0 1 = none)
    (h3 : cellAt b 0 2 = none) (h4 : cellAt b 0 3 = none)
    (h5 : cellAt b 0 0 = some (PColor.black, PKind.R))
    (h6 : isKingInCheck b false = some false)
    (h7 : isSquareUnderAttack 0 2 b true = some false)
    (h8 : isSquareUnderAttack 0 3 b true = some false) :
    blackQueensideCastle b gs = some [((0 : Int), (2 : Int))] := by
  unfold blackQueensideCastle
  rw [if_pos ⟨h1, h2, h3, h4, h5⟩, h6, h7, h8]
  simp

/-! ## Decomposition of getPossibleMoves -/

lemma castleMoves_nonking (p : Piece) (b : Board) (gs : GameState)
    (hk : p.2 ≠ PKind.K) : castleMoves p b gs = some [] := by
  unfold castleMoves
  rw [if_neg hk]
  rfl

lemma castleMoves_white (p : Piece) (b : Board) (gs : GameState)
    (L : List (Int × Int)) (hk : p.2 = PKind.K) (hw : p.1.isWhite = true)
    (h : castleMoves p b gs = some L) :
    ∃ k q, whiteKingsideCastle b gs = some k ∧ whiteQueensideCastle b gs = some q ∧
      L = k ++ q := by
  unfold castleMoves at h
  rw [if_pos hk, if_pos hw] at h
  cases hks : whiteKingsideCastle b gs with
  | none => rw [hks] at h; exact absurd h (by simp)
  | some k =>
    cases hqs : whiteQueensideCastle b gs with
    | none => rw [hks, hqs] at h; exact absurd h (by simp)
    | some q =>
      rw [hks, hqs] at h
      simp only [Option.bind_eq_bind, Option.some_bind, Option.pure_def,
        Option.some_inj] at h
      exact ⟨k, q, rfl, rfl, h.symm⟩

lemma castleMoves_black (p : Piece) (b : Board) (gs : GameState)
    (L : List (Int × Int)) (hk : p.2 = PKind.K) (hw : p.1.isWhite = false)
    (h : castleMoves p b gs = some L) :
    ∃ k q, blackKingsideCastle b gs = some k ∧ blackQueensideCastle b gs = some q ∧
      L = k ++ q := by
  unfold castleMoves at h
  rw [if_pos hk, if_neg (by rw [hw]; simp)] at h
  cases hks : blackKingsideCastle b gs with
  | none => rw [hks] at h; exact absurd h (by simp)
  | some k =>
    cases hqs : blackQueensideCastle b gs with
    | none => rw [hks, hqs] at h; exact absurd h (by simp)
    | some q =>
      rw [hks, hqs] at h
      simp only [Option.bind_eq_bind, Option.some_bind, Option.pure_def,
        Option.some_inj] at h
      exact ⟨k, q, rfl, rfl, h.symm⟩

lemma getPossibleMoves_empty (row col : Fin 8) (b : Board) (gs : GameState)
    (hp : b row col = none) : getPossibleMoves row col b gs = some [] := by
  simp [getPossibleMoves, hp]

lemma getPossibleMoves_decomp (row col : Fin 8) (b : Board) (gs : GameState)
    (p : Piece) (mvs : List (Int × Int)) (hp : b row col = some p)
    (h : getPossibleMoves row col b gs = some mvs) :
    ∃ raw castle, getRawPossibleMoves row col b = some raw ∧
      castleMoves p b gs = some castle ∧
      filterSafe row col b p.1.isWhite (raw ++ castle) = some mvs := by
  unfold getPossibleMoves at h
  rw [hp, Option.elim_some] at h
  cases hraw : getRawPossibleMoves row col b with
  | none => rw [hraw] at h; exact absurd h (by simp)
  | some raw =>
    cases hcas : castleMoves p b gs with
    | none => rw [hraw, hcas] at h; exact absurd h (by simp)
    | some castle =>
      rw [hraw, hcas] at h
      simp only [Option.bind_eq_bind, Option.some_bind] at h
      exact ⟨raw, castle, rfl, rfl, h⟩

/-! ## Rights monotonicity lemmas -/

lemma rightsLe_refl (g : GameState) : rightsLe g g := by
  unfold rightsLe
  exact ⟨id, id, id, id⟩

lemma rightsLe_trans (g3 g2 g1 : GameState) (h32 : rightsLe g3 g2)
    (h21 : rightsLe g2 g1) : rightsLe g3 g1 := by
  unfold rightsLe at h32 h21 ⊢
  exact ⟨fun h => h32.1 (h21.1 h), fun h => h32.2.1 (h21.2.1 h),
    fun h => h32.2.2.1 (h21.2.2.1 h), fun h => h32.2.2.2 (h21.2.2.2 h)⟩

lemma ugsKingStep_rightsLe (fr fc tc : Int) (piece : Cell) (b : Board)
    (gs : GameState) : rightsLe (ugsKingStep fr fc tc piece b gs).2 gs := by
  unfold ugsKingStep rightsLe
  split_ifs <;> refine ⟨fun h => ?_, fun h => ?_, fun h => ?_, fun h => ?_⟩ <;>
    simp_all

lemma ugsRookStep_rightsLe (fr fc : Int) (piece : Cell) (gs : GameState) :
    rightsLe (ugsRookStep fr fc piece gs) gs := by
  unfold ugsRookStep rightsLe
  split_ifs <;> refine ⟨fun h => ?_, fun h => ?_, fun h => ?_, fun h => ?_⟩ <;>
    simp_all

lemma ugsCaptureStep_rightsLe (tr tc : Int) (target : Cell) (gs : GameState) :
    rightsLe (ugsCaptureStep tr tc target gs) gs := by
  unfold ugsCaptureStep rightsLe
  split_ifs <;> refine ⟨fun h => ?_, fun h => ?_, fun h => ?_, fun h => ?_⟩ <;>
    simp_all

lemma updateGameState_eq (fr fc tr tc : Int) (b : Board) (gs : GameState)
    (h1 : 0 ≤ fr ∧ fr < 8) (h2 : 0 ≤ tr ∧ tr < 8) :
    updateGameState fr fc tr tc b gs =
      some ((ugsKingStep fr fc tc (cellAt b fr fc) b gs).1,
        ugsCaptureStep tr tc
          (cellAt (ugsKingStep fr fc tc (cellAt b fr fc) b gs).1 tr tc)
          (ugsRookStep fr fc (cellAt b fr fc)
            (ugsKingStep fr fc tc (cellAt b fr fc) b gs).2)) := by
  unfold updateGameState
  rw [if_pos h1, if_pos h2]

lemma updateGameState_bounds (fr fc tr tc : Int) (b : Board) (gs : GameState)
    (x : Board × GameState) (h : updateGameState fr fc tr tc b gs = some x) :
    (0 ≤ fr ∧ fr < 8) ∧ (0 ≤ tr ∧ tr < 8) := by
  unfold updateGameState at h
  split_ifs at h with h1 h2
  · exact ⟨h1, h2⟩

lemma updateGameState_rightsLe (fr fc tr tc : Int) (b : Board) (gs : GameState)
    (b2 : Board) (gs2 : GameState)
    (h : updateGameState fr fc tr tc b gs = some (b2, gs2)) :
    rightsLe gs2 gs := by
  obtain ⟨h1, h2⟩ := updateGameState_bounds fr fc tr tc b gs _ h
  rw [updateGameState_eq fr fc tr tc b gs h1 h2] at h
  injection h with h
  rw [Prod.mk.injEq] at h
  rw [← h.2]
  exact rightsLe_trans _ _ _ (ugsCaptureStep_rightsLe _ _ _ _)
    (rightsLe_trans _ _ _ (ugsRookStep_rightsLe _ _ _ _)
      (ugsKingStep_rightsLe _ _ _ _ _ _))

lemma foldRights_rightsLe (calls : List MoveCall) :
    ∀ gs0 gsN : GameState,
      List.foldlM updateRightsCall gs0 calls = some gsN → rightsLe gsN gs0 := by
  induction calls with
  | nil =>
    intro gs0 gsN h
    simp only [List.foldlM_nil] at h
    injection h with h
    rw [← h]
    exact rightsLe_refl gs0
  | cons mc rest ih =>
    intro gs0 gsN h
    rw [List.foldlM_cons] at h
    cases hstep : updateRightsCall gs0 mc with
    | none => rw [hstep] at h; exact absurd h (by simp)
    | some gs1 =>
      rw [hstep] at h
      simp only [Option.bind_eq_bind, Option.some_bind] at h
      have hle1 : rightsLe gs1 gs0 := by
        unfold updateRightsCall at hstep
        cases hupd : updateGameState mc.fr mc.fc mc.tr mc.tc mc.board gs0 with
        | none => rw [hupd] at hstep; exact absurd hstep (by simp)
        | some x =>
          rw [hupd] at hstep
          simp only [Option.map_some'] at hstep
          injection hstep with hstep
          rw [← hstep]
          exact updateGameState_rightsLe _ _ _ _ _ _ x.1 x.2 (by rw [hupd])
      exact rightsLe_trans _ _ _ (ih gs1 gsN h) hle1

/-- C3: each castling-rights boolean returned by `updateGameState` is false
    whenever the corresponding input boolean is false, and across any
    sequence of `updateGameState` calls each bit only ever transitions from
    true to false, never back. -/
theorem C3_castling_rights_monotone :
    (∀ (fr fc tr tc : Int) (b : Board) (gs : GameState) (b2 : Board)
        (gs2 : GameState),
      updateGameState fr fc tr tc b gs = some (b2, gs2) →
      (gs.canWhiteCastleKingside = false → gs2.canWhiteCastleKingside = false) ∧
      (gs.canWhiteCastleQueenside = false → gs2.canWhiteCastleQueenside = false) ∧
      (gs.canBlackCastleKingside = false → gs2.canBlackCastleKingside = false) ∧
      (gs.canBlackCastleQueenside = false → gs2.canBlackCastleQueenside = false)) ∧
    (∀ (calls : List MoveCall) (gs0 gsN : GameState),
      List.foldlM updateRightsCall gs0 calls = some gsN → rightsLe gsN gs0) := by
  constructor
  · intro fr fc tr tc b gs b2 gs2 h
    exact updateGameState_rightsLe fr fc tr tc b gs b2 gs2 h
  · exact fun calls => foldRights_rightsLe calls

/-- Witness for C3 at a concrete call: returning the pawn move e4-e5 keeps
    an all-cleared rights record cleared. -/
theorem C3_castling_rights_monotone_witness :
    List.foldlM updateRightsCall noRightsGameState
      [⟨6, 4, 5, 4, initialBoard⟩] = some noRightsGameState ∧
    rightsLe noRightsGameState noRightsGameState :=
  ⟨by decide,
    C3_castling_rights_monotone.2 [⟨6, 4, 5, 4, initialBoard⟩] noRightsGameState
      noRightsGameState (by decide)⟩

/-! ## C4: isKingInCheck on a kingless board -/

/-- C4 counterexample: on a board with no white king, `isKingInCheck`
    returns the ordinary boolean `false` instead of failing with a
    NoKingFound error. -/
theorem C4_counterexample_no_error :
    findKing emptyBoard true = none ∧ isKingInCheck emptyBoard true = some false := by
  constructor
  · decide
  · decide

/-- C4 (amended): when no king of the queried color is present,
    `isKingInCheck` returns `false` (kingless boards are treated as not in
    check); when a king is found, it returns whether the opposite color
    attacks the king square. -/
theorem C4_kingless_check (b : Board) (isW : Bool) :
    (findKing b isW = none → isKingInCheck b isW = some false) ∧
    (∀ sq : Fin 8 × Fin 8, findKing b isW = some sq →
      isKingInCheck b isW = isSquareUnderAttack (sq.1 : Int) (sq.2 : Int) b (!isW)) := by
  constructor
  · intro h
    simp [isKingInCheck, h]
  · intro sq h
    simp [isKingInCheck, h]

theorem C4_kingless_check_witness :
    findKing emptyBoard false = none ∧ isKingInCheck emptyBoard false = some false :=
  ⟨by decide, (C4_kingless_check emptyBoard false).1 (by decide)⟩

/-! ## C5: the far-rank pawn crash -/

/-- C5: the code is not total.  Querying the raw or legal moves of a white
    pawn standing on its far rank (row 0) evaluates
    `board[row + direction][col + offset]` = `board[-1][1]`, which throws a
    TypeError (`none`), contradicting the totality stated by the spec. -/
theorem C5_far_rank_pawn_throws :
    getRawPossibleMoves 0 0 c5Board = none ∧
    getPossibleMoves 0 0 c5Board initialGameState = none := by
  constructor
  · decide
  · decide

/-! ## C6: generated moves stay on the board -/

lemma castleMoves_bounds (p : Piece) (b : Board) (gs : GameState)
    (L : List (Int × Int)) (h : castleMoves p b gs = some L) :
    ∀ s ∈ L, inB s.1 s.2 := by
  intro s hs
  by_cases hk : p.2 = PKind.K
  · cases hw : p.1.isWhite with
    | true =>
      obtain ⟨k, q, hks, hqs, rfl⟩ := castleMoves_white p b gs L hk hw h
      rcases List.mem_append.1 hs with hs2 | hs2
      · rcases whiteKingsideCastle_cases b gs k hks with rfl | ⟨rfl, -⟩
        · cases hs2
        · rw [List.mem_singleton] at hs2
          subst hs2
          exact (by decide : inB 7 6)
      · rcases whiteQueensideCastle_cases b gs q hqs with rfl | ⟨rfl, -⟩
        · cases hs2
        · rw [List.mem_singleton] at hs2
          subst hs2
          exact (by decide : inB 7 2)
    | false =>
      obtain ⟨k, q, hks, hqs, rfl⟩ := castleMoves_black p b gs L hk hw h
      rcases List.mem_append.1 hs with hs2 | hs2
      · rcases blackKingsideCastle_cases b gs k hks with rfl | ⟨rfl, -⟩
        · cases hs2
        · rw [List.mem_singleton] at hs2
          subst hs2
          exact (by decide : inB 0 6)
      · rcases blackQueensideCastle_cases b gs q hqs with rfl | ⟨rfl, -⟩
        · cases hs2
        · rw [List.mem_singleton] at hs2
          subst hs2
          exact (by decide : inB 0 2)
  · rw [castleMoves_nonking p b gs hk] at h
    injection h with h
    subst h
    cases hs

/-- C6: every square of a successfully generated move list — raw moves and
    legal moves alike — has row and column in [0,7]. -/
theorem C6_generated_moves_on_board (row col : Fin 8) (b : Board) (gs : GameState) :
    (∀ l, getRawPossibleMoves row col b = some l → ∀ s ∈ l, inB s.1 s.2) ∧
    (∀ l, getPossibleMoves row col b gs = some l → ∀ s ∈ l, inB s.1 s.2) := by
  constructor
  · intro l h
    exact rawMoves_bounds row col b l h
  · intro l h s hs
    cases hp : b row col with
    | none =>
      rw [getPossibleMoves_empty row col b gs hp] at h
      injection h with h
      subst h
      cases hs
    | some p =>
      obtain ⟨raw, castle, hraw, hcas, hfil⟩ :=
        getPossibleMoves_decomp row col b gs p l hp h
      rw [filterSafe_mem row col b p.1.isWhite _ l hfil s] at hs
      rcases List.mem_append.1 hs.1 with hs2 | hs2
      · exact rawMoves_bounds row col b raw hraw s hs2
      · exact castleMoves_bounds p b gs castle hcas s hs2

theorem C6_generated_moves_on_board_witness : inB 5 4 :=
  (C6_generated_moves_on_board 6 4 initialBoard initialGameState).1
    [((5 : Int), (4 : Int)), (4, 4)] (by decide) ((5 : Int), (4 : Int)) (by decide)

/-! ## C7: the promotion contract -/

lemma fin8_int_inj (i r : Fin 8) (h : (i : Int) = (r : Int)) : i = r := by
  apply Fin.ext
  exact_mod_cast h

/-- C7: `promotePawn` is a silent no-op on an empty or non-pawn cell, and
    on a pawn replaces exactly that cell by a piece of the same color and
    the requested kind. -/
theorem C7_promote_contract (r c : Fin 8) (b : Board) (k : PKind) :
    (b r c = none → ∀ i j : Fin 8, promotePawn (r : Int) (c : Int) b k i j = b i j) ∧
    (∀ p : Piece, b r c = some p → p.2 ≠ PKind.P →
      ∀ i j : Fin 8, promotePawn (r : Int) (c : Int) b k i j = b i j) ∧
    (∀ pc : PColor, b r c = some (pc, PKind.P) →
      promotePawn (r : Int) (c : Int) b k r c = some (pc, k) ∧
      ∀ i j : Fin 8, (i, j) ≠ (r, c) → promotePawn (r : Int) (c : Int) b k i j = b i j) := by
  refine ⟨?_, ?_, ?_⟩
  · intro h i j
    unfold promotePawn
    rw [cellAt_coe, h, Option.elim_none]
  · intro p hp hkind i j
    unfold promotePawn
    rw [cellAt_coe, hp, Option.elim_some, if_neg hkind]
  · intro pc hp
    have hbody : promotePawn (r : Int) (c : Int) b k =
        setCell b (r : Int) (c : Int) (some (pc, k)) := by
      unfold promotePawn
      rw [cellAt_coe, hp, Option.elim_some, if_pos rfl]
    constructor
    · rw [hbody, setCell_eval, if_pos ⟨rfl, rfl⟩]
    · intro i j hne
      rw [hbody, setCell_eval, if_neg]
      rintro ⟨h1, h2⟩
      exact hne (Prod.ext (fin8_int_inj i r h1) (fin8_int_inj j c h2))

theorem C7_promote_contract_witness :
    promotePawn 6 0 initialBoard PKind.Q 6 0 = some (PColor.white, PKind.Q) :=
  ((C7_promote_contract 6 0 initialBoard PKind.Q).2.2 PColor.white (by decide)).1

/-! ## C9: castling rights never influence a non-king query -/

/-- C9: for a square holding any piece other than a king, `getPossibleMoves`
    returns the same result for every castling-rights record. -/
theorem C9_rights_only_affect_kings (row col : Fin 8) (b : Board)
    (gs1 gs2 : GameState) (p : Piece) (hp : b row col = some p)
    (hk : p.2 ≠ PKind.K) :
    getPossibleMoves row col b gs1 = getPossibleMoves row col b gs2 := by
  simp only [getPossibleMoves, hp, Option.elim_some,
    castleMoves_nonking p b gs1 hk, castleMoves_nonking p b gs2 hk]

theorem C9_rights_only_affect_kings_witness :
    getPossibleMoves 6 4 initialBoard noRightsGameState =
      getPossibleMoves 6 4 initialBoard initialGameState :=
  C9_rights_only_affect_kings 6 4 initialBoard noRightsGameState initialGameState
    (PColor.white, PKind.P) (by decide) (by decide)

/-! ## C10: makeComputerMove never mutates its inputs -/

lemma hset_ne (h : BoardHeap) (r : Nat) (b : Board) (i : Nat) (hi : i ≠ r) :
    hset h r b i = h i := by
  unfold hset
  rw [if_neg hi]

/-- C10: in the heap model, every write of `makeComputerMove` targets the
    freshly allocated copy, so the input board reference and the rights heap
    are unchanged when the call returns. -/
theorem C10_inputs_not_mutated (hB : BoardHeap) (hG : GSHeap)
    (bref gref freshRef i1 i2 : Nat) (hfresh : freshRef ≠ bref)
    (hB2 : BoardHeap) (hG2 : GSHeap) (rref : Nat) (gs2 : GameState)
    (h : makeComputerMoveH hB hG bref gref freshRef i1 i2 =
      some (hB2, hG2, rref, gs2)) :
    hB2 bref = hB bref ∧ hG2 = hG := by
  have hbne : bref ≠ freshRef := fun e => hfresh e.symm
  unfold makeComputerMoveH at h
  dsimp only at h
  cases hbp : collectBlack (hB bref) (hG gref) allSquares with
  | none => rw [hbp] at h; exact absurd h (by simp)
  | some bp =>
    rw [hbp] at h
    simp only [Option.bind_eq_bind, Option.some_bind] at h
    by_cases hbpe : bp = []
    · rw [if_pos hbpe] at h
      simp only [Option.pure_def, Option.some_inj, Prod.mk.injEq] at h
      obtain ⟨e1, e2, -, -⟩ := h
      constructor
      · rw [← e1]
        exact hset_ne hB freshRef (hB bref) bref hbne
      · rw [← e2]
    · rw [if_neg hbpe] at h
      cases hupd : updateGameState (((bp.getD i1 default).row : Fin 8) : Int)
          (((bp.getD i1 default).col : Fin 8) : Int)
          ((bp.getD i1 default).moves.getD i2 ((0 : Int), (0 : Int))).1
          ((bp.getD i1 default).moves.getD i2 ((0 : Int), (0 : Int))).2
          (hset hB freshRef (hB bref) freshRef) (hG gref) with
      | none => rw [hupd] at h; exact absurd h (by simp)
      | some res =>
        rw [hupd] at h
        simp only [Option.bind_eq_bind, Option.some_bind, Option.pure_def,
          Option.some_inj, Prod.mk.injEq] at h
        obtain ⟨e1, e2, -, -⟩ := h
        constructor
        · rw [← e1]
          by_cases hpromo : canPromotePawn
              ((bp.getD i1 default).moves.getD i2 ((0 : Int), (0 : Int))).1
              ((bp.getD i1 default).moves.getD i2 ((0 : Int), (0 : Int))).2
              (hset (hset (hset hB freshRef (hB bref)) freshRef res.1) freshRef
                (setCell
                  (setCell ((hset (hset hB freshRef (hB bref)) freshRef res.1) freshRef)
                    ((bp.getD i1 default).moves.getD i2 ((0 : Int), (0 : Int))).1
                    ((bp.getD i1 default).moves.getD i2 ((0 : Int), (0 : Int))).2
                    (some (bp.getD i1 default).piece))
                  (((bp.getD i1 default).row : Fin 8) : Int)
                  (((bp.getD i1 default).col : Fin 8) : Int) none)
                freshRef) = true
          · rw [if_pos hpromo]
            rw [hset_ne _ freshRef _ bref hbne, hset_ne _ freshRef _ bref hbne,
              hset_ne _ freshRef _ bref hbne, hset_ne _ freshRef _ bref hbne]
          · rw [if_neg hpromo]
            rw [hset_ne _ freshRef _ bref hbne, hset_ne _ freshRef _ bref hbne,
              hset_ne _ freshRef _ bref hbne]
        · rw [← e2]

theorem C10_inputs_not_mutated_witness :
    hset (fun _ => emptyBoard) 1 emptyBoard 0 = emptyBoard ∧
    (fun _ : Nat => initialGameState) = (fun _ => initialGameState) :=
  C10_inputs_not_mutated (fun _ => emptyBoard) (fun _ => initialGameState)
    0 0 1 0 0 (by decide) (hset (fun _ => emptyBoard) 1 emptyBoard)
    (fun _ => initialGameState) 1 initialGameState rfl

/-! ## Support lemmas for the self-check-safety proof -/

lemma setCell_eval_ne (b : Board) (r c : Int) (v : Cell) (i j : Fin 8)
    (h : ¬((i : Int) = r ∧ (j : Int) = c)) : setCell b r c v i j = b i j := by
  rw [setCell_eval, if_neg h]

lemma setCell_eval_eq (b : Board) (r c : Int) (v : Cell) (i j : Fin 8)
    (h1 : (i : Int) = r) (h2 : (j : Int) = c) : setCell b r c v i j = v := by
  rw [setCell_eval, if_pos ⟨h1, h2⟩]

lemma isKingInCheck_none (b : Board) (isW : Bool) (h : findKing b isW = none) :
    isKingInCheck b isW = some false := by
  simp [isKingInCheck, h]

lemma isKingInCheck_some (b : Board) (isW : Bool) (sq : Fin 8 × Fin 8)
    (h : findKing b isW = some sq) :
    isKingInCheck b isW = isSquareUnderAttack (sq.1 : Int) (sq.2 : Int) b (!isW) := by
  simp [isKingInCheck, h]

/-- A regular king raw move stays within one column of the origin. -/
lemma kingStep_col (b : Board) (pc : PColor) (r c : Int) (s : Int × Int)
    (hs : s ∈ stepMoves b pc r c kingOffsets) :
    c - 1 ≤ s.2 ∧ s.2 ≤ c + 1 := by
  rw [stepMoves_mem] at hs
  obtain ⟨o, ho, rfl, -, -⟩ := hs
  simp only [kingOffsets, List.mem_cons, List.not_mem_nil, or_false] at ho
  rcases ho with rfl | rfl | rfl | rfl | rfl | rfl | rfl | rfl <;>
    constructor <;> simp <;> omega

/-- The board side effect of `ugsKingStep`, by cases. -/
lemma ugsKingStep_board_cases (fr fc tc : Int) (piece : Cell) (b : Board)
    (gs : GameState) :
    (ugsKingStep fr fc tc piece b gs).1 = b ∨
    (piece = some (PColor.white, PKind.K) ∧ fr = 7 ∧ fc = 4 ∧ tc = 6 ∧
      (ugsKingStep fr fc tc piece b gs).1 =
        setCell (setCell b 7 5 (cellAt b 7 7)) 7 7 none) ∨
    (piece = some (PColor.white, PKind.K) ∧ fr = 7 ∧ fc = 4 ∧ tc = 2 ∧
      (ugsKingStep fr fc tc piece b gs).1 =
        setCell (setCell b 7 3 (cellAt b 7 0)) 7 0 none) ∨
    (piece = some (PColor.black, PKind.K) ∧ fr = 0 ∧ fc = 4 ∧ tc = 6 ∧
      (ugsKingStep fr fc tc piece b gs).1 =
        setCell (setCell b 0 5 (cellAt b 0 7)) 0 7 none) ∨
    (piece = some (PColor.black, PKind.K) ∧ fr = 0 ∧ fc = 4 ∧ tc = 2 ∧
      (ugsKingStep fr fc tc piece b gs).1 =
        setCell (setCell b 0 3 (cellAt b 0 0)) 0 0 none) := by
  unfold ugsKingStep
  split_ifs with h1 h2 h3 h4 h5 h6 h7 h8
  · exact Or.inr (Or.inl ⟨h1, h2.1, h2.2, h3, rfl⟩)
  · exact Or.inr (Or.inr (Or.inl ⟨h1, h2.1, h2.2, h4, rfl⟩))
  · exact Or.inl rfl
  · exact Or.inl rfl
  · exact Or.inr (Or.inr (Or.inr (Or.inl ⟨h5, h6.1, h6.2, h7, rfl⟩)))
  · exact Or.inr (Or.inr (Or.inr (Or.inr ⟨h5, h6.1, h6.2, h8, rfl⟩)))
  · exact Or.inl rfl
  · exact Or.inl rfl
  · exact Or.inl rfl

lemma applyMove_decomp (fr fc tr tc : Int) (b : Board) (gs : GameState)
    (b2 : Board) (gs2 : GameState)
    (h : applyMove fr fc tr tc b gs = some (b2, gs2)) :
    ∃ res : Board × GameState, updateGameState fr fc tr tc b gs = some res ∧
      b2 = setCell (setCell res.1 tr tc (cellAt b fr fc)) fr fc none ∧
      gs2 = res.2 := by
  unfold applyMove at h
  cases hupd : updateGameState fr fc tr tc b gs with
  | none => rw [hupd] at h; exact absurd h (by simp)
  | some res =>
    rw [hupd] at h
    simp only [Option.bind_eq_bind, Option.some_bind, Option.pure_def,
      Option.some_inj, Prod.mk.injEq] at h
    exact ⟨res, rfl, h.1.symm, h.2.symm⟩

/-! ## Attack transfer: the rook relocation of castling cannot create an
attack on the castled king.

`T` is the simulation board of the check filter (king moved, rook still on
its home square); `B2` is the board actually produced by applying the
castling move (rook relocated).  They differ at two squares on the king
rank: `x`, empty in `T` and holding the castling side rook in `B2`, and
`y`, the rook home square, occupied in `T` and empty in `B2`.  The lemmas
show that any attack on the king square in `B2` already existed in `T`. -/

lemma slideWalk_transfer (T B2 : Board) (pc : PColor) (dr dc : Int)
    (xI yI ks : Int × Int)
    (hagree : ∀ i j : Int, (i, j) ≠ xI → (i, j) ≠ yI → cellAt B2 i j = cellAt T i j)
    (hx : cellAt B2 xI.1 xI.2 ≠ none)
    (hks : cellAt B2 ks.1 ks.2 = cellAt T ks.1 ks.2)
    (r c : Int)
    (hgeo : ∀ j k2 : Nat, j < k2 →
      (r + ((j : Int) + 1) * dr, c + ((j : Int) + 1) * dc) = yI →
      (r + ((k2 : Int) + 1) * dr, c + ((k2 : Int) + 1) * dc) = ks → False)
    (hmem : ks ∈ slideWalk B2 pc dr dc 8 (r + dr) (c + dc)) :
    ks ∈ slideWalk T pc dr dc 8 (r + dr) (c + dc) := by
  rw [slideWalk_mem] at hmem ⊢
  obtain ⟨k, hk, hsk, hinb, hcells, hlast⟩ := hmem
  refine ⟨k, hk, hsk, hinb, ?_, ?_⟩
  · intro j hj
    have hcellB := hcells j hj
    have hpos_ne_x : (r + dr + (j : Int) * dr, c + dc + (j : Int) * dc) ≠ xI := by
      intro he
      apply hx
      rw [← he]
      exact hcellB
    have hpos_ne_y : (r + dr + (j : Int) * dr, c + dc + (j : Int) * dc) ≠ yI := by
      intro he
      apply hgeo j k hj
      · rw [← he]
        simp only [Prod.mk.injEq]
        constructor <;> ring
      · rw [hsk]
        simp only [Prod.mk.injEq]
        constructor <;> ring
    rw [← hagree _ _ hpos_ne_x hpos_ne_y]
    exact hcellB
  · rw [← hks]
    exact hlast

lemma stepMoves_transfer (T B2 : Board) (pc : PColor) (r c : Int)
    (offs : List (Int × Int)) (ks : Int × Int)
    (hks : cellAt B2 ks.1 ks.2 = cellAt T ks.1 ks.2)
    (hmem : ks ∈ stepMoves B2 pc r c offs) :
    ks ∈ stepMoves T pc r c offs := by
  rw [stepMoves_mem] at hmem ⊢
  obtain ⟨o, ho, hso, hin, hcond⟩ := hmem
  refine ⟨o, ho, hso, hin, ?_⟩
  have he1 : ks.1 = r + o.1 := by rw [hso]
  have he2 : ks.2 = c + o.2 := by rw [hso]
  rw [← he1, ← he2, ← hks]
  rw [← he1, ← he2] at hcond
  exact hcond

lemma pawnMovesM_isSome_congr (b b2 : Board) (pc : PColor) (r c : Int) :
    (pawnMovesM b pc r c).isSome = (pawnMovesM b2 pc r c).isSome := by
  unfold pawnMovesM
  have h1 := pawnCaptureM_isSome_congr b b2 pc r c (pawnDir pc) (-1)
  have h2 := pawnCaptureM_isSome_congr b b2 pc r c (pawnDir pc) 1
  cases ha : pawnCaptureM b pc r c (pawnDir pc) (-1) with
  | none =>
    rw [ha] at h1
    cases hb : pawnCaptureM b2 pc r c (pawnDir pc) (-1) with
    | none => simp
    | some lb => rw [hb] at h1; exact absurd h1.symm (by simp)
  | some la =>
    rw [ha] at h1
    cases hb : pawnCaptureM b2 pc r c (pawnDir pc) (-1) with
    | none => rw [hb] at h1; exact absurd h1 (by simp)
    | some lb =>
      cases ha2 : pawnCaptureM b pc r c (pawnDir pc) 1 with
      | none =>
        rw [ha2] at h2
        cases hb2 : pawnCaptureM b2 pc r c (pawnDir pc) 1 with
        | none => simp
        | some lb2 => rw [hb2] at h2; exact absurd h2.symm (by simp)
      | some la2 =>
        rw [ha2] at h2
        cases hb2 : pawnCaptureM b2 pc r c (pawnDir pc) 1 with
        | none => rw [hb2] at h2; exact absurd h2 (by simp)
        | some lb2 => simp

lemma rawMoves_isSome_congr (sq : Fin 8 × Fin 8) (T B2 : Board)
    (hsame : B2 sq.1 sq.2 = T sq.1 sq.2) (mvsT : List (Int × Int))
    (hT : getRawPossibleMoves sq.1 sq.2 T = some mvsT) :
    ∃ mvsB, getRawPossibleMoves sq.1 sq.2 B2 = some mvsB := by
  cases hp : T sq.1 sq.2 with
  | none =>
    exact ⟨[], getRaw_none sq.1 sq.2 B2 (by rw [hsame, hp])⟩
  | some p =>
    have hpB : B2 sq.1 sq.2 = some p := by rw [hsame, hp]
    rw [getRaw_some sq.1 sq.2 B2 p hpB]
    rw [getRaw_some sq.1 sq.2 T p hp] at hT
    rcases p with ⟨pc, k⟩
    cases k with
    | P =>
      simp only [rawMovesOfKind] at hT ⊢
      have := pawnMovesM_isSome_congr B2 T pc (sq.1 : Int) (sq.2 : Int)
      rw [hT] at this
      simp only [Option.isSome_some] at this
      cases hB : pawnMovesM B2 pc (sq.1 : Int) (sq.2 : Int) with
      | none => rw [hB] at this; exact absurd this (by simp)
      | some lb => exact ⟨lb, rfl⟩
    | R => exact ⟨_, rfl⟩
    | N => exact ⟨_, rfl⟩
    | B => exact ⟨_, rfl⟩
    | Q => exact ⟨_, rfl⟩
    | K => exact ⟨_, rfl⟩

lemma pawnMoves_transfer (T B2 : Board) (pc : PColor) (r c : Int)
    (LB LT : List (Int × Int))
    (hB : pawnMovesM B2 pc r c = some LB) (hT : pawnMovesM T pc r c = some LT)
    (xI yI ks : Int × Int)
    (hagree : ∀ i j : Int, (i, j) ≠ xI → (i, j) ≠ yI → cellAt B2 i j = cellAt T i j)
    (hks : cellAt B2 ks.1 ks.2 = cellAt T ks.1 ks.2)
    (hxrow : xI.1 = ks.1) (hyrow : yI.1 = ks.1)
    (hmem : ks ∈ LB) : ks ∈ LT := by
  have hd : pawnDir pc = -1 ∨ pawnDir pc = 1 := by
    cases pc
    · exact Or.inl pawnDir_white
    · exact Or.inr pawnDir_black
  rw [pawnMovesM_mem B2 pc r c LB hB ks] at hmem
  rw [pawnMovesM_mem T pc r c LT hT ks]
  rcases hmem with ⟨⟨hb1, hb2, hcellF⟩, hf | ⟨hf, hsr, hcellD⟩⟩ |
    ⟨hf, hcb, hrb, hen⟩ | ⟨hf, hcb, hrb, hen⟩
  · subst hf
    refine Or.inl ⟨⟨hb1, hb2, ?_⟩, Or.inl rfl⟩
    rw [← hks]
    exact hcellF
  · subst hf
    have hmid_ne_x : ((r + pawnDir pc, c) : Int × Int) ≠ xI := by
      intro he
      have : xI.1 = r + pawnDir pc := by rw [← he]
      rw [hxrow] at this
      simp only at this
      rcases hd with hd | hd <;> omega
    have hmid_ne_y : ((r + pawnDir pc, c) : Int × Int) ≠ yI := by
      intro he
      have : yI.1 = r + pawnDir pc := by rw [← he]
      rw [hyrow] at this
      simp only at this
      rcases hd with hd | hd <;> omega
    refine Or.inl ⟨⟨hb1, hb2, ?_⟩, Or.inr ⟨rfl, hsr, ?_⟩⟩
    · rw [← hagree _ _ hmid_ne_x hmid_ne_y]
      exact hcellF
    · rw [← hks]
      exact hcellD
  · subst hf
    refine Or.inr (Or.inl ⟨rfl, hcb, hrb, ?_⟩)
    rw [← hks]
    exact hen
  · subst hf
    refine Or.inr (Or.inr ⟨rfl, hcb, hrb, ?_⟩)
    rw [← hks]
    exact hen

lemma rawMoves_transfer (sq : Fin 8 × Fin 8) (T B2 : Board) (p : Piece)
    (hpB : B2 sq.1 sq.2 = some p) (hpT : T sq.1 sq.2 = some p)
    (xI yI ks : Int × Int)
    (hagree : ∀ i j : Int, (i, j) ≠ xI → (i, j) ≠ yI → cellAt B2 i j = cellAt T i j)
    (hx : cellAt B2 xI.1 xI.2 ≠ none)
    (hks : cellAt B2 ks.1 ks.2 = cellAt T ks.1 ks.2)
    (hxrow : xI.1 = ks.1) (hyrow : yI.1 = ks.1)
    (hgeoAll : ∀ dr dc : Int, ((dr, dc) ∈ rookDirs ∨ (dr, dc) ∈ bishopDirs) →
      ∀ j k2 : Nat, j < k2 →
(((sq.1 : Int)) + ((j : Int) + 1) * dr, ((sq.2 : Int)) + ((j : Int) + 1) * dc) = yI →
(((sq.1 : Int)) + ((k2 : Int) + 1) * dr, ((sq.2 : Int)) + ((k2 : Int) + 1) * dc) = ks →
      False)
    (LB LT : List (Int × Int))
    (hrawB : getRawPossibleMoves sq.1 sq.2 B2 = some LB)
    (hrawT : getRawPossibleMoves sq.1 sq.2 T = some LT)
    (hmem : ks ∈ LB) : ks ∈ LT := by
  rw [getRaw_some sq.1 sq.2 B2 p hpB] at hrawB
  rw [getRaw_some sq.1 sq.2 T p hpT] at hrawT
  rcases p with ⟨pc, k⟩
  cases k with
  | P =>
    simp only [rawMovesOfKind] at hrawB hrawT
    exact pawnMoves_transfer T B2 pc (sq.1 : Int) (sq.2 : Int) LB LT hrawB hrawT
      xI yI ks hagree hks hxrow hyrow hmem
  | R =>
    simp only [rawMovesOfKind, Option.some_inj] at hrawB hrawT
    subst hrawB
    subst hrawT
    rw [slideMoves_mem] at hmem ⊢
    obtain ⟨dir, hdir, hw⟩ := hmem
    exact ⟨dir, hdir, slideWalk_transfer T B2 pc dir.1 dir.2 xI yI ks hagree hx hks
      (sq.1 : Int) (sq.2 : Int) (hgeoAll dir.1 dir.2 (Or.inl (by simpa using hdir))) hw⟩
  | N =>
    simp only [rawMovesOfKind, Option.some_inj] at hrawB hrawT
    subst hrawB
    subst hrawT
    exact stepMoves_transfer T B2 pc (sq.1 : Int) (sq.2 : Int) knightOffsets ks hks hmem
  | B =>
    simp only [rawMovesOfKind, Option.some_inj] at hrawB hrawT
    subst hrawB
    subst hrawT
    rw [slideMoves_mem] at hmem ⊢
    obtain ⟨dir, hdir, hw⟩ := hmem
    exact ⟨dir, hdir, slideWalk_transfer T B2 pc dir.1 dir.2 xI yI ks hagree hx hks
      (sq.1 : Int) (sq.2 : Int) (hgeoAll dir.1 dir.2 (Or.inr (by simpa using hdir))) hw⟩
  | Q =>
    simp only [rawMovesOfKind, Option.some_inj] at hrawB hrawT
    subst hrawB
    subst hrawT
    rcases List.mem_append.1 hmem with hm | hm
    · apply List.mem_append.2
      left
      rw [slideMoves_mem] at hm ⊢
      obtain ⟨dir, hdir, hw⟩ := hm
      exact ⟨dir, hdir, slideWalk_transfer T B2 pc dir.1 dir.2 xI yI ks hagree hx hks
        (sq.1 : Int) (sq.2 : Int) (hgeoAll dir.1 dir.2 (Or.inl (by simpa using hdir))) hw⟩
    · apply List.mem_append.2
      right
      rw [slideMoves_mem] at hm ⊢
      obtain ⟨dir, hdir, hw⟩ := hm
      exact ⟨dir, hdir, slideWalk_transfer T B2 pc dir.1 dir.2 xI yI ks hagree hx hks
        (sq.1 : Int) (sq.2 : Int) (hgeoAll dir.1 dir.2 (Or.inr (by simpa using hdir))) hw⟩
  | K =>
    simp only [rawMovesOfKind, Option.some_inj] at hrawB hrawT
    subst hrawB
    subst hrawT
    exact stepMoves_transfer T B2 pc (sq.1 : Int) (sq.2 : Int) kingOffsets ks hks hmem

lemma cellAt_agree_of_board_agree (T B2 : Board) (x y : Fin 8 × Fin 8)
    (hagreeF : ∀ sq : Fin 8 × Fin 8, sq ≠ x → sq ≠ y → B2 sq.1 sq.2 = T sq.1 sq.2) :
    ∀ i j : Int, (i, j) ≠ ((x.1 : Int), (x.2 : Int)) →
      (i, j) ≠ ((y.1 : Int), (y.2 : Int)) → cellAt B2 i j = cellAt T i j := by
  intro i j hx hy
  by_cases hin : inB i j
  · obtain ⟨fi, fj, e1, e2, eB⟩ := cellAt_eq_of_inB B2 i j hin
    obtain ⟨fi2, fj2, e1b, e2b, eT⟩ := cellAt_eq_of_inB T i j hin
    have hfi : fi2 = fi := fin8_int_inj fi2 fi (by rw [e1b, e1])
    have hfj : fj2 = fj := fin8_int_inj fj2 fj (by rw [e2b, e2])
    rw [eB, eT, hfi, hfj]
    refine hagreeF (fi, fj) ?_ ?_
    · intro he
      apply hx
      have c1 : fi = x.1 := congrArg Prod.fst he
      have c2 : fj = x.2 := congrArg Prod.snd he
      rw [← e1, ← e2, c1, c2]
    · intro he
      apply hy
      have c1 : fi = y.1 := congrArg Prod.fst he
      have c2 : fj = y.2 := congrArg Prod.snd he
      rw [← e1, ← e2, c1, c2]
  · unfold cellAt
    rw [dif_neg hin, dif_neg hin]

/-- Transfer of a completed no-attack scan from the simulation board `T` to
    the applied board `B2`. -/
lemma attack_transfer (T B2 : Board) (byW : Bool) (x y ks : Fin 8 × Fin 8)
    (hagreeF : ∀ sq : Fin 8 × Fin 8, sq ≠ x → sq ≠ y → B2 sq.1 sq.2 = T sq.1 sq.2)
    (hks_cell : B2 ks.1 ks.2 = T ks.1 ks.2)
    (hxB : ∃ q : Piece, B2 x.1 x.2 = some q ∧ q.1.isWhite ≠ byW)
    (hyB : B2 y.1 y.2 = none)
    (hxrow : (x.1 : Int) = (ks.1 : Int)) (hyrow : (y.1 : Int) = (ks.1 : Int))
    (hgeo : ∀ dr dc : Int, ((dr, dc) ∈ rookDirs ∨ (dr, dc) ∈ bishopDirs) →
      ∀ r c : Int, inB r c → ∀ j k2 : Nat, j < k2 →
        (r + ((j : Int) + 1) * dr, c + ((j : Int) + 1) * dc) =
          ((y.1 : Int), (y.2 : Int)) →
        (r + ((k2 : Int) + 1) * dr, c + ((k2 : Int) + 1) * dc) =
          ((ks.1 : Int), (ks.2 : Int)) → False)
    (hT : isSquareUnderAttack (ks.1 : Int) (ks.2 : Int) T byW = some false) :
    isSquareUnderAttack (ks.1 : Int) (ks.2 : Int) B2 byW = some false := by
  rw [isSquareUnderAttack_false_iff] at hT ⊢
  intro sq p hpB hcolor
  have hsqx : sq ≠ x := by
    rintro rfl
    obtain ⟨q, hq, hqw⟩ := hxB
    rw [hpB] at hq
    injection hq with hq
    rw [← hq] at hqw
    exact hqw hcolor
  have hsqy : sq ≠ y := by
    rintro rfl
    rw [hpB] at hyB
    exact absurd hyB (by simp)
  have hsame : B2 sq.1 sq.2 = T sq.1 sq.2 := hagreeF sq hsqx hsqy
  have hpT : T sq.1 sq.2 = some p := by rw [← hsame, hpB]
  obtain ⟨mvsT, hrawT, hnotT⟩ := hT sq p hpT hcolor
  obtain ⟨mvsB, hrawB⟩ := rawMoves_isSome_congr sq T B2 hsame mvsT hrawT
  refine ⟨mvsB, hrawB, ?_⟩
  intro hmemB
  apply hnotT
  have hagreeI := cellAt_agree_of_board_agree T B2 x y hagreeF
  have hxI : cellAt B2 (x.1 : Int) (x.2 : Int) ≠ none := by
    rw [cellAt_coe]
    obtain ⟨q, hq, -⟩ := hxB
    rw [hq]
    simp
  have hksI : cellAt B2 (ks.1 : Int) (ks.2 : Int) = cellAt T (ks.1 : Int) (ks.2 : Int) := by
    rw [cellAt_coe, cellAt_coe, hks_cell]
  exact rawMoves_transfer sq T B2 p hpB hpT
    ((x.1 : Int), (x.2 : Int)) ((y.1 : Int), (y.2 : Int)) ((ks.1 : Int), (ks.2 : Int))
    hagreeI hxI hksI hxrow hyrow
    (fun dr dc hd j k2 hjk h1 h2 =>
      hgeo dr dc hd (sq.1 : Int) (sq.2 : Int)
        ⟨(fin8_int_bounds sq.1).1, (fin8_int_bounds sq.1).2,
          (fin8_int_bounds sq.2).1, (fin8_int_bounds sq.2).2⟩ j k2 hjk h1 h2)
    mvsB mvsT hrawB hrawT hmemB

/-- No sliding ray can pass through the kingside rook home column (column 7)
    and then reach the castled king square (column 6) on the same rank. -/
lemma geo_kingside (rho : Int) :
    ∀ dr dc : Int, ((dr, dc) ∈ rookDirs ∨ (dr, dc) ∈ bishopDirs) →
      ∀ r c : Int, inB r c → ∀ j k2 : Nat, j < k2 →
        (r + ((j : Int) + 1) * dr, c + ((j : Int) + 1) * dc) = (rho, 7) →
        (r + ((k2 : Int) + 1) * dr, c + ((k2 : Int) + 1) * dc) = (rho, 6) → False := by
  intro dr dc hd r c hin j k2 hjk h1 h2
  obtain ⟨hb1, hb2, hb3, hb4⟩ := hin
  simp only [Prod.mk.injEq] at h1 h2
  rcases hd with hd | hd <;>
    simp only [rookDirs, bishopDirs, List.mem_cons, List.not_mem_nil, or_false,
      Prod.mk.injEq] at hd <;>
    rcases hd with ⟨rfl, rfl⟩ | ⟨rfl, rfl⟩ | ⟨rfl, rfl⟩ | ⟨rfl, rfl⟩ <;> omega

/-- No sliding ray can pass through the queenside rook home column (column 0)
    and then reach the castled king square (column 2) on the same rank. -/
lemma geo_queenside (rho : Int) :
    ∀ dr dc : Int, ((dr, dc) ∈ rookDirs ∨ (dr, dc) ∈ bishopDirs) →
      ∀ r c : Int, inB r c → ∀ j k2 : Nat, j < k2 →
        (r + ((j : Int) + 1) * dr, c + ((j : Int) + 1) * dc) = (rho, 0) →
        (r + ((k2 : Int) + 1) * dr, c + ((k2 : Int) + 1) * dc) = (rho, 2) → False := by
  intro dr dc hd r c hin j k2 hjk h1 h2
  obtain ⟨hb1, hb2, hb3, hb4⟩ := hin
  simp only [Prod.mk.injEq] at h1 h2
  rcases hd with hd | hd <;>
    simp only [rookDirs, bishopDirs, List.mem_cons, List.not_mem_nil, or_false,
      Prod.mk.injEq] at hd <;>
    rcases hd with ⟨rfl, rfl⟩ | ⟨rfl, rfl⟩ | ⟨rfl, rfl⟩ | ⟨rfl, rfl⟩ <;> omega

lemma pairne_int (sq q : Fin 8 × Fin 8) (h : sq ≠ q) :
    ¬((sq.1 : Int) = (q.1 : Int) ∧ (sq.2 : Int) = (q.2 : Int)) := by
  rintro ⟨h1, h2⟩
  exact h (Prod.ext (fin8_int_inj _ _ h1) (fin8_int_inj _ _ h2))


/-- White kingside castling: the applied board (rook relocated) is check-free for white whenever the simulation board (rook still at home) was. -/
lemma castle_case_wk (b : Board) (fr fc : Fin 8) (wp : Fin 8 × Fin 8)
    (hwk : oneKingAt b true wp)
    (hfr : (fr : Int) = 7) (hfc : (fc : Int) = 4)
    (hp : b fr fc = some (PColor.white, PKind.K))
    (hrook : cellAt b 7 7 = some (PColor.white, PKind.R))
    (hsim : isKingInCheck (testBoardMove b fr fc 7 6) true = some false)
    (b2 : Board)
    (hb2 : b2 = setCell (setCell (setCell
      (setCell b 7 5 (cellAt b 7 7)) 7 7 none)
      7 6 (cellAt b (fr : Int) (fc : Int))) (fr : Int) (fc : Int) none) :
    isKingInCheck b2 true = some false := by
  have hpK : b fr fc = some (kingPiece true) := hp
  have hwp : (fr, fc) = wp := hwk.2 (fr, fc) hpK
  have hTks : testBoardMove b fr fc 7 6 ((7 : Fin 8) : Fin 8) ((6 : Fin 8) : Fin 8) =
      b fr fc := by
    unfold testBoardMove
    rw [setCell_eval_ne _ _ _ _ _ _ (by rw [hfr, hfc]; decide),
      setCell_eval_eq _ _ _ _ _ _ (by decide) (by decide)]
  have hTorigin : testBoardMove b fr fc 7 6 fr fc = none := by
    unfold testBoardMove
    rw [setCell_eval_eq _ _ _ _ _ _ rfl rfl]
  have hTother : ∀ q : Fin 8 × Fin 8, q ≠ (fr, fc) → q ≠ ((7 : Fin 8), (6 : Fin 8)) →
      testBoardMove b fr fc 7 6 q.1 q.2 = b q.1 q.2 := by
    intro q hq1 hq2
    unfold testBoardMove
    rw [setCell_eval_ne _ _ _ _ _ _ (pairne_int q (fr, fc) hq1),
      setCell_eval_ne _ _ _ _ _ _ (by exact pairne_int q (7, 6) hq2)]
  have hB2ks : b2 ((7 : Fin 8) : Fin 8) ((6 : Fin 8) : Fin 8) = b fr fc := by
    rw [hb2]
    rw [setCell_eval_ne _ _ _ _ _ _ (by rw [hfr, hfc]; decide),
      setCell_eval_eq _ _ _ _ _ _ (by decide) (by decide)]
    rw [cellAt_coe]
  have hB2origin : b2 fr fc = none := by
    rw [hb2]
    rw [setCell_eval_eq _ _ _ _ _ _ rfl rfl]
  have hB2x : b2 ((7 : Fin 8) : Fin 8) ((5 : Fin 8) : Fin 8) = cellAt b 7 7 := by
    rw [hb2]
    rw [setCell_eval_ne _ _ _ _ _ _ (by rw [hfr, hfc]; decide),
      setCell_eval_ne _ _ _ _ _ _ (by decide),
      setCell_eval_ne _ _ _ _ _ _ (by decide),
      setCell_eval_eq _ _ _ _ _ _ (by decide) (by decide)]
  have hB2y : b2 ((7 : Fin 8) : Fin 8) ((7 : Fin 8) : Fin 8) = none := by
    rw [hb2]
    rw [setCell_eval_ne _ _ _ _ _ _ (by rw [hfr, hfc]; decide),
      setCell_eval_ne _ _ _ _ _ _ (by decide),
      setCell_eval_eq _ _ _ _ _ _ (by decide) (by decide)]
  have hB2other : ∀ q : Fin 8 × Fin 8, q ≠ (fr, fc) → q ≠ ((7 : Fin 8), (6 : Fin 8)) →
      q ≠ ((7 : Fin 8), (7 : Fin 8)) → q ≠ ((7 : Fin 8), (5 : Fin 8)) →
      b2 q.1 q.2 = b q.1 q.2 := by
    intro q hq1 hq2 hq3 hq4
    rw [hb2]
    rw [setCell_eval_ne _ _ _ _ _ _ (pairne_int q (fr, fc) hq1),
      setCell_eval_ne _ _ _ _ _ _ (by exact pairne_int q (7, 6) hq2),
      setCell_eval_ne _ _ _ _ _ _ (by exact pairne_int q (7, 7) hq3),
      setCell_eval_ne _ _ _ _ _ _ (by exact pairne_int q (7, 5) hq4)]
  have hfkT : findKing (testBoardMove b fr fc 7 6) true =
      some ((7 : Fin 8), (6 : Fin 8)) := by
    apply findKing_unique
    · exact hTks.trans hpK
    · intro q hq
      by_cases hq2 : q = ((7 : Fin 8), (6 : Fin 8))
      · exact hq2
      · by_cases hq1 : q = (fr, fc)
        · rw [hq1] at hq
          rw [hTorigin] at hq
          exact absurd hq (by simp)
        · rw [hTother q hq1 hq2] at hq
          exact absurd (hwp ▸ hwk.2 q hq) hq1
  have hfkB2 : findKing b2 true = some ((7 : Fin 8), (6 : Fin 8)) := by
    apply findKing_unique
    · exact hB2ks.trans hpK
    · intro q hq
      by_cases hq2 : q = ((7 : Fin 8), (6 : Fin 8))
      · exact hq2
      · by_cases hq1 : q = (fr, fc)
        · rw [hq1, hB2origin] at hq
          exact absurd hq (by simp)
        · by_cases hq3 : q = ((7 : Fin 8), (7 : Fin 8))
          · rw [hq3, hB2y] at hq
            exact absurd hq (by simp)
          · by_cases hq4 : q = ((7 : Fin 8), (5 : Fin 8))
            · rw [hq4, hB2x, hrook] at hq
              exact absurd hq (by simp [kingPiece])
            · rw [hB2other q hq1 hq2 hq3 hq4] at hq
              exact absurd (hwp ▸ hwk.2 q hq) hq1
  have hsimScan : isSquareUnderAttack (((7 : Fin 8) : Int)) (((6 : Fin 8) : Int))
      (testBoardMove b fr fc 7 6) false = some false := by
    have := isKingInCheck_some (testBoardMove b fr fc 7 6) true _ hfkT
    rw [this] at hsim
    rw [Bool.not_true] at hsim
    exact hsim
  have hscanB2 : isSquareUnderAttack (((7 : Fin 8) : Int)) (((6 : Fin 8) : Int))
      b2 false = some false := by
    apply attack_transfer (testBoardMove b fr fc 7 6) b2 false
      ((7 : Fin 8), (5 : Fin 8)) ((7 : Fin 8), (7 : Fin 8))
      ((7 : Fin 8), (6 : Fin 8))
    · intro sq hne5 hne7
      by_cases hq1 : sq = (fr, fc)
      · rw [hq1]
        show b2 fr fc = testBoardMove b fr fc 7 6 fr fc
        rw [hB2origin, hTorigin]
      · by_cases hq2 : sq = ((7 : Fin 8), (6 : Fin 8))
        · rw [hq2]
          show b2 7 6 = testBoardMove b fr fc 7 6 7 6
          rw [hB2ks, hTks]
        · rw [hB2other sq hq1 hq2 hne7 hne5, hTother sq hq1 hq2]
    · rw [hB2ks, hTks]
    · refine ⟨(PColor.white, PKind.R), ?_, by decide⟩
      rw [hB2x, hrook]
    · exact hB2y
    · decide
    · decide
    · exact fun dr dc hd r c hin j k2 hjk h1 h2 =>
        geo_kingside 7 dr dc hd r c hin j k2 hjk h1 h2
    · exact hsimScan
  rw [isKingInCheck_some b2 true _ hfkB2, Bool.not_true]
  exact hscanB2

/-- White queenside castling: the applied board (rook relocated) is check-free for white whenever the simulation board was. -/
lemma castle_case_wq (b : Board) (fr fc : Fin 8) (wp : Fin 8 × Fin 8)
    (hwk : oneKingAt b true wp)
    (hfr : (fr : Int) = 7) (hfc : (fc : Int) = 4)
    (hp : b fr fc = some (PColor.white, PKind.K))
    (hrook : cellAt b 7 0 = some (PColor.white, PKind.R))
    (hsim : isKingInCheck (testBoardMove b fr fc 7 2) true = some false)
    (b2 : Board)
    (hb2 : b2 = setCell (setCell (setCell
      (setCell b 7 3 (cellAt b 7 0)) 7 0 none)
      7 2 (cellAt b (fr : Int) (fc : Int))) (fr : Int) (fc : Int) none) :
    isKingInCheck b2 true = some false := by
  have hpK : b fr fc = some (kingPiece true) := hp
  have hwp : (fr, fc) = wp := hwk.2 (fr, fc) hpK
  have hTks : testBoardMove b fr fc 7 2 ((7 : Fin 8) : Fin 8) ((2 : Fin 8) : Fin 8) =
      b fr fc := by
    unfold testBoardMove
    rw [setCell_eval_ne _ _ _ _ _ _ (by rw [hfr, hfc]; decide),
      setCell_eval_eq _ _ _ _ _ _ (by decide) (by decide)]
  have hTorigin : testBoardMove b fr fc 7 2 fr fc = none := by
    unfold testBoardMove
    rw [setCell_eval_eq _ _ _ _ _ _ rfl rfl]
  have hTother : ∀ q : Fin 8 × Fin 8, q ≠ (fr, fc) → q ≠ ((7 : Fin 8), (2 : Fin 8)) →
      testBoardMove b fr fc 7 2 q.1 q.2 = b q.1 q.2 := by
    intro q hq1 hq2
    unfold testBoardMove
    rw [setCell_eval_ne _ _ _ _ _ _ (pairne_int q (fr, fc) hq1),
      setCell_eval_ne _ _ _ _ _ _ (by exact pairne_int q (7, 2) hq2)]
  have hB2ks : b2 ((7 : Fin 8) : Fin 8) ((2 : Fin 8) : Fin 8) = b fr fc := by
    rw [hb2]
    rw [setCell_eval_ne _ _ _ _ _ _ (by rw [hfr, hfc]; decide),
      setCell_eval_eq _ _ _ _ _ _ (by decide) (by decide)]
    rw [cellAt_coe]
  have hB2origin : b2 fr fc = none := by
    rw [hb2]
    rw [setCell_eval_eq _ _ _ _ _ _ rfl rfl]
  have hB2x : b2 ((7 : Fin 8) : Fin 8) ((3 : Fin 8) : Fin 8) = cellAt b 7 0 := by
    rw [hb2]
    rw [setCell_eval_ne _ _ _ _ _ _ (by rw [hfr, hfc]; decide),
      setCell_eval_ne _ _ _ _ _ _ (by decide),
      setCell_eval_ne _ _ _ _ _ _ (by decide),
      setCell_eval_eq _ _ _ _ _ _ (by decide) (by decide)]
  have hB2y : b2 ((7 : Fin 8) : Fin 8) ((0 : Fin 8) : Fin 8) = none := by
    rw [hb2]
    rw [setCell_eval_ne _ _ _ _ _ _ (by rw [hfr, hfc]; decide),
      setCell_eval_ne _ _ _ _ _ _ (by decide),
      setCell_eval_eq _ _ _ _ _ _ (by decide) (by decide)]
  have hB2other : ∀ q : Fin 8 × Fin 8, q ≠ (fr, fc) → q ≠ ((7 : Fin 8), (2 : Fin 8)) →
      q ≠ ((7 : Fin 8), (0 : Fin 8)) → q ≠ ((7 : Fin 8), (3 : Fin 8)) →
      b2 q.1 q.2 = b q.1 q.2 := by
    intro q hq1 hq2 hq3 hq4
    rw [hb2]
    rw [setCell_eval_ne _ _ _ _ _ _ (pairne_int q (fr, fc) hq1),
      setCell_eval_ne _ _ _ _ _ _ (by exact pairne_int q (7, 2) hq2),
      setCell_eval_ne _ _ _ _ _ _ (by exact pairne_int q (7, 0) hq3),
      setCell_eval_ne _ _ _ _ _ _ (by exact pairne_int q (7, 3) hq4)]
  have hfkT : findKing (testBoardMove b fr fc 7 2) true =
      some ((7 : Fin 8), (2 : Fin 8)) := by
    apply findKing_unique
    · exact hTks.trans hpK
    · intro q hq
      by_cases hq2 : q = ((7 : Fin 8), (2 : Fin 8))
      · exact hq2
      · by_cases hq1 : q = (fr, fc)
        · rw [hq1] at hq
          rw [hTorigin] at hq
          exact absurd hq (by simp)
        · rw [hTother q hq1 hq2] at hq
          exact absurd (hwp ▸ hwk.2 q hq) hq1
  have hfkB2 : findKing b2 true = some ((7 : Fin 8), (2 : Fin 8)) := by
    apply findKing_unique
    · exact hB2ks.trans hpK
    · intro q hq
      by_cases hq2 : q = ((7 : Fin 8), (2 : Fin 8))
      · exact hq2
      · by_cases hq1 : q = (fr, fc)
        · rw [hq1, hB2origin] at hq
          exact absurd hq (by simp)
        · by_cases hq3 : q = ((7 : Fin 8), (0 : Fin 8))
          · rw [hq3, hB2y] at hq
            exact absurd hq (by simp)
          · by_cases hq4 : q = ((7 : Fin 8), (3 : Fin 8))
            · rw [hq4, hB2x, hrook] at hq
              exact absurd hq (by simp [kingPiece])
            · rw [hB2other q hq1 hq2 hq3 hq4] at hq
              exact absurd (hwp ▸ hwk.2 q hq) hq1
  have hsimScan : isSquareUnderAttack (((7 : Fin 8) : Int)) (((2 : Fin 8) : Int))
      (testBoardMove b fr fc 7 2) false = some false := by
    have := isKingInCheck_some (testBoardMove b fr fc 7 2) true _ hfkT
    rw [this] at hsim
    rw [Bool.not_true] at hsim
    exact hsim
  have hscanB2 : isSquareUnderAttack (((7 : Fin 8) : Int)) (((2 : Fin 8) : Int))
      b2 false = some false := by
    apply attack_transfer (testBoardMove b fr fc 7 2) b2 false
      ((7 : Fin 8), (3 : Fin 8)) ((7 : Fin 8), (0 : Fin 8))
      ((7 : Fin 8), (2 : Fin 8))
    · intro sq hne5 hne7
      by_cases hq1 : sq = (fr, fc)
      · rw [hq1]
        show b2 fr fc = testBoardMove b fr fc 7 2 fr fc
        rw [hB2origin, hTorigin]
      · by_cases hq2 : sq = ((7 : Fin 8), (2 : Fin 8))
        · rw [hq2]
          show b2 7 2 = testBoardMove b fr fc 7 2 7 2
          rw [hB2ks, hTks]
        · rw [hB2other sq hq1 hq2 hne7 hne5, hTother sq hq1 hq2]
    · rw [hB2ks, hTks]
    · refine ⟨(PColor.white, PKind.R), ?_, by decide⟩
      rw [hB2x, hrook]
    · exact hB2y
    · decide
    · decide
    · exact fun dr dc hd r c hin j k2 hjk h1 h2 =>
        geo_queenside 7 dr dc hd r c hin j k2 hjk h1 h2
    · exact hsimScan
  rw [isKingInCheck_some b2 true _ hfkB2, Bool.not_true]
  exact hscanB2

/-- Black kingside castling: the applied board (rook relocated) is check-free for black whenever the simulation board was. -/
lemma castle_case_bk (b : Board) (fr fc : Fin 8) (wp : Fin 8 × Fin 8)
    (hwk : oneKingAt b false wp)
    (hfr : (fr : Int) = 0) (hfc : (fc : Int) = 4)
    (hp : b fr fc = some (PColor.black, PKind.K))
    (hrook : cellAt b 0 7 = some (PColor.black, PKind.R))
    (hsim : isKingInCheck (testBoardMove b fr fc 0 6) false = some false)
    (b2 : Board)
    (hb2 : b2 = setCell (setCell (setCell
      (setCell b 0 5 (cellAt b 0 7)) 0 7 none)
      0 6 (cellAt b (fr : Int) (fc : Int))) (fr : Int) (fc : Int) none) :
    isKingInCheck b2 false = some false := by
  have hpK : b fr fc = some (kingPiece false) := hp
  have hwp : (fr, fc) = wp := hwk.2 (fr, fc) hpK
  have hTks : testBoardMove b fr fc 0 6 ((0 : Fin 8) : Fin 8) ((6 : Fin 8) : Fin 8) =
      b fr fc := by
    unfold testBoardMove
    rw [setCell_eval_ne _ _ _ _ _ _ (by rw [hfr, hfc]; decide),
      setCell_eval_eq _ _ _ _ _ _ (by decide) (by decide)]
  have hTorigin : testBoardMove b fr fc 0 6 fr fc = none := by
    unfold testBoardMove
    rw [setCell_eval_eq _ _ _ _ _ _ rfl rfl]
  have hTother : ∀ q : Fin 8 × Fin 8, q ≠ (fr, fc) → q ≠ ((0 : Fin 8), (6 : Fin 8)) →
      testBoardMove b fr fc 0 6 q.1 q.2 = b q.1 q.2 := by
    intro q hq1 hq2
    unfold testBoardMove
    rw [setCell_eval_ne _ _ _ _ _ _ (pairne_int q (fr, fc) hq1),
      setCell_eval_ne _ _ _ _ _ _ (by exact pairne_int q (0, 6) hq2)]
  have hB2ks : b2 ((0 : Fin 8) : Fin 8) ((6 : Fin 8) : Fin 8) = b fr fc := by
    rw [hb2]
    rw [setCell_eval_ne _ _ _ _ _ _ (by rw [hfr, hfc]; decide),
      setCell_eval_eq _ _ _ _ _ _ (by decide) (by decide)]
    rw [cellAt_coe]
  have hB2origin : b2 fr fc = none := by
    rw [hb2]
    rw [setCell_eval_eq _ _ _ _ _ _ rfl rfl]
  have hB2x : b2 ((0 : Fin 8) : Fin 8) ((5 : Fin 8) : Fin 8) = cellAt b 0 7 := by
    rw [hb2]
    rw [setCell_eval_ne _ _ _ _ _ _ (by rw [hfr, hfc]; decide),
      setCell_eval_ne _ _ _ _ _ _ (by decide),
      setCell_eval_ne _ _ _ _ _ _ (by decide),
      setCell_eval_eq _ _ _ _ _ _ (by decide) (by decide)]
  have hB2y : b2 ((0 : Fin 8) : Fin 8) ((7 : Fin 8) : Fin 8) = none := by
    rw [hb2]
    rw [setCell_eval_ne _ _ _ _ _ _ (by rw [hfr, hfc]; decide),
      setCell_eval_ne _ _ _ _ _ _ (by decide),
      setCell_eval_eq _ _ _ _ _ _ (by decide) (by decide)]
  have hB2other : ∀ q : Fin 8 × Fin 8, q ≠ (fr, fc) → q ≠ ((0 : Fin 8), (6 : Fin 8)) →
      q ≠ ((0 : Fin 8), (7 : Fin 8)) → q ≠ ((0 : Fin 8), (5 : Fin 8)) →
      b2 q.1 q.2 = b q.1 q.2 := by
    intro q hq1 hq2 hq3 hq4
    rw [hb2]
    rw [setCell_eval_ne _ _ _ _ _ _ (pairne_int q (fr, fc) hq1),
      setCell_eval_ne _ _ _ _ _ _ (by exact pairne_int q (0, 6) hq2),
      setCell_eval_ne _ _ _ _ _ _ (by exact pairne_int q (0, 7) hq3),
      setCell_eval_ne _ _ _ _ _ _ (by exact pairne_int q (0, 5) hq4)]
  have hfkT : findKing (testBoardMove b fr fc 0 6) false =
      some ((0 : Fin 8), (6 : Fin 8)) := by
    apply findKing_unique
    · exact hTks.trans hpK
    · intro q hq
      by_cases hq2 : q = ((0 : Fin 8), (6 : Fin 8))
      · exact hq2
      · by_cases hq1 : q = (fr, fc)
        · rw [hq1] at hq
          rw [hTorigin] at hq
          exact absurd hq (by simp)
        · rw [hTother q hq1 hq2] at hq
          exact absurd (hwp ▸ hwk.2 q hq) hq1
  have hfkB2 : findKing b2 false = some ((0 : Fin 8), (6 : Fin 8)) := by
    apply findKing_unique
    · exact hB2ks.trans hpK
    · intro q hq
      by_cases hq2 : q = ((0 : Fin 8), (6 : Fin 8))
      · exact hq2
      · by_cases hq1 : q = (fr, fc)
        · rw [hq1, hB2origin] at hq
          exact absurd hq (by simp)
        · by_cases hq3 : q = ((0 : Fin 8), (7 : Fin 8))
          · rw [hq3, hB2y] at hq
            exact absurd hq (by simp)
          · by_cases hq4 : q = ((0 : Fin 8), (5 : Fin 8))
            · rw [hq4, hB2x, hrook] at hq
              exact absurd hq (by simp [kingPiece])
            · rw [hB2other q hq1 hq2 hq3 hq4] at hq
              exact absurd (hwp ▸ hwk.2 q hq) hq1
  have hsimScan : isSquareUnderAttack (((0 : Fin 8) : Int)) (((6 : Fin 8) : Int))
      (testBoardMove b fr fc 0 6) true = some false := by
    have := isKingInCheck_some (testBoardMove b fr fc 0 6) false _ hfkT
    rw [this] at hsim
    rw [Bool.not_false] at hsim
    exact hsim
  have hscanB2 : isSquareUnderAttack (((0 : Fin 8) : Int)) (((6 : Fin 8) : Int))
      b2 true = some false := by
    apply attack_transfer (testBoardMove b fr fc 0 6) b2 true
      ((0 : Fin 8), (5 : Fin 8)) ((0 : Fin 8), (7 : Fin 8))
      ((0 : Fin 8), (6 : Fin 8))
    · intro sq hne5 hne7
      by_cases hq1 : sq = (fr, fc)
      · rw [hq1]
        show b2 fr fc = testBoardMove b fr fc 0 6 fr fc
        rw [hB2origin, hTorigin]
      · by_cases hq2 : sq = ((0 : Fin 8), (6 : Fin 8))
        · rw [hq2]
          show b2 0 6 = testBoardMove b fr fc 0 6 0 6
          rw [hB2ks, hTks]
        · rw [hB2other sq hq1 hq2 hne7 hne5, hTother sq hq1 hq2]
    · rw [hB2ks, hTks]
    · refine ⟨(PColor.black, PKind.R), ?_, by decide⟩
      rw [hB2x, hrook]
    · exact hB2y
    · decide
    · decide
    · exact fun dr dc hd r c hin j k2 hjk h1 h2 =>
        geo_kingside 0 dr dc hd r c hin j k2 hjk h1 h2
    · exact hsimScan
  rw [isKingInCheck_some b2 false _ hfkB2, Bool.not_false]
  exact hscanB2

/-- Black queenside castling: the applied board (rook relocated) is check-free for black whenever the simulation board was. -/
lemma castle_case_bq (b : Board) (fr fc : Fin 8) (wp : Fin 8 × Fin 8)
    (hwk : oneKingAt b false wp)
    (hfr : (fr : Int) = 0) (hfc : (fc : Int) = 4)
    (hp : b fr fc = some (PColor.black, PKind.K))
    (hrook : cellAt b 0 0 = some (PColor.black, PKind.R))
    (hsim : isKingInCheck (testBoardMove b fr fc 0 2) false = some false)
    (b2 : Board)
    (hb2 : b2 = setCell (setCell (setCell
      (setCell b 0 3 (cellAt b 0 0)) 0 0 none)
      0 2 (cellAt b (fr : Int) (fc : Int))) (fr : Int) (fc : Int) none) :
    isKingInCheck b2 false = some false := by
  have hpK : b fr fc = some (kingPiece false) := hp
  have hwp : (fr, fc) = wp := hwk.2 (fr, fc) hpK
  have hTks : testBoardMove b fr fc 0 2 ((0 : Fin 8) : Fin 8) ((2 : Fin 8) : Fin 8) =
      b fr fc := by
    unfold testBoardMove
    rw [setCell_eval_ne _ _ _ _ _ _ (by rw [hfr, hfc]; decide),
      setCell_eval_eq _ _ _ _ _ _ (by decide) (by decide)]
  have hTorigin : testBoardMove b fr fc 0 2 fr fc = none := by
    unfold testBoardMove
    rw [setCell_eval_eq _ _ _ _ _ _ rfl rfl]
  have hTother : ∀ q : Fin 8 × Fin 8, q ≠ (fr, fc) → q ≠ ((0 : Fin 8), (2 : Fin 8)) →
      testBoardMove b fr fc 0 2 q.1 q.2 = b q.1 q.2 := by
    intro q hq1 hq2
    unfold testBoardMove
    rw [setCell_eval_ne _ _ _ _ _ _ (pairne_int q (fr, fc) hq1),
      setCell_eval_ne _ _ _ _ _ _ (by exact pairne_int q (0, 2) hq2)]
  have hB2ks : b2 ((0 : Fin 8) : Fin 8) ((2 : Fin 8) : Fin 8) = b fr fc := by
    rw [hb2]
    rw [setCell_eval_ne _ _ _ _ _ _ (by rw [hfr, hfc]; decide),
      setCell_eval_eq _ _ _ _ _ _ (by decide) (by decide)]
    rw [cellAt_coe]
  have hB2origin : b2 fr fc = none := by
    rw [hb2]
    rw [setCell_eval_eq _ _ _ _ _ _ rfl rfl]
  have hB2x : b2 ((0 : Fin 8) : Fin 8) ((3 : Fin 8) : Fin 8) = cellAt b 0 0 := by
    rw [hb2]
    rw [setCell_eval_ne _ _ _ _ _ _ (by rw [hfr, hfc]; decide),
      setCell_eval_ne _ _ _ _ _ _ (by decide),
      setCell_eval_ne _ _ _ _ _ _ (by decide),
      setCell_eval_eq _ _ _ _ _ _ (by decide) (by decide)]
  have hB2y : b2 ((0 : Fin 8) : Fin 8) ((0 : Fin 8) : Fin 8) = none := by
    rw [hb2]
    rw [setCell_eval_ne _ _ _ _ _ _ (by rw [hfr, hfc]; decide),
      setCell_eval_ne _ _ _ _ _ _ (by decide),
      setCell_eval_eq _ _ _ _ _ _ (by decide) (by decide)]
  have hB2other : ∀ q : Fin 8 × Fin 8, q ≠ (fr, fc) → q ≠ ((0 : Fin 8), (2 : Fin 8)) →
      q ≠ ((0 : Fin 8), (0 : Fin 8)) → q ≠ ((0 : Fin 8), (3 : Fin 8)) →
      b2 q.1 q.2 = b q.1 q.2 := by
    intro q hq1 hq2 hq3 hq4
    rw [hb2]
    rw [setCell_eval_ne _ _ _ _ _ _ (pairne_int q (fr, fc) hq1),
      setCell_eval_ne _ _ _ _ _ _ (by exact pairne_int q (0, 2) hq2),
      setCell_eval_ne _ _ _ _ _ _ (by exact pairne_int q (0, 0) hq3),
      setCell_eval_ne _ _ _ _ _ _ (by exact pairne_int q (0, 3) hq4)]
  have hfkT : findKing (testBoardMove b fr fc 0 2) false =
      some ((0 : Fin 8), (2 : Fin 8)) := by
    apply findKing_unique
    · exact hTks.trans hpK
    · intro q hq
      by_cases hq2 : q = ((0 : Fin 8), (2 : Fin 8))
      · exact hq2
      · by_cases hq1 : q = (fr, fc)
        · rw [hq1] at hq
          rw [hTorigin] at hq
          exact absurd hq (by simp)
        · rw [hTother q hq1 hq2] at hq
          exact absurd (hwp ▸ hwk.2 q hq) hq1
  have hfkB2 : findKing b2 false = some ((0 : Fin 8), (2 : Fin 8)) := by
    apply findKing_unique
    · exact hB2ks.trans hpK
    · intro q hq
      by_cases hq2 : q = ((0 : Fin 8), (2 : Fin 8))
      · exact hq2
      · by_cases hq1 : q = (fr, fc)
        · rw [hq1, hB2origin] at hq
          exact absurd hq (by simp)
        · by_cases hq3 : q = ((0 : Fin 8), (0 : Fin 8))
          · rw [hq3, hB2y] at hq
            exact absurd hq (by simp)
          · by_cases hq4 : q = ((0 : Fin 8), (3 : Fin 8))
            · rw [hq4, hB2x, hrook] at hq
              exact absurd hq (by simp [kingPiece])
            · rw [hB2other q hq1 hq2 hq3 hq4] at hq
              exact absurd (hwp ▸ hwk.2 q hq) hq1
  have hsimScan : isSquareUnderAttack (((0 : Fin 8) : Int)) (((2 : Fin 8) : Int))
      (testBoardMove b fr fc 0 2) true = some false := by
    have := isKingInCheck_some (testBoardMove b fr fc 0 2) false _ hfkT
    rw [this] at hsim
    rw [Bool.not_false] at hsim
    exact hsim
  have hscanB2 : isSquareUnderAttack (((0 : Fin 8) : Int)) (((2 : Fin 8) : Int))
      b2 true = some false := by
    apply attack_transfer (testBoardMove b fr fc 0 2) b2 true
      ((0 : Fin 8), (3 : Fin 8)) ((0 : Fin 8), (0 : Fin 8))
      ((0 : Fin 8), (2 : Fin 8))
    · intro sq hne5 hne7
      by_cases hq1 : sq = (fr, fc)
      · rw [hq1]
        show b2 fr fc = testBoardMove b fr fc 0 2 fr fc
        rw [hB2origin, hTorigin]
      · by_cases hq2 : sq = ((0 : Fin 8), (2 : Fin 8))
        · rw [hq2]
          show b2 0 2 = testBoardMove b fr fc 0 2 0 2
          rw [hB2ks, hTks]
        · rw [hB2other sq hq1 hq2 hne7 hne5, hTother sq hq1 hq2]
    · rw [hB2ks, hTks]
    · refine ⟨(PColor.black, PKind.R), ?_, by decide⟩
      rw [hB2x, hrook]
    · exact hB2y
    · decide
    · decide
    · exact fun dr dc hd r c hin j k2 hjk h1 h2 =>
        geo_queenside 0 dr dc hd r c hin j k2 hjk h1 h2
    · exact hsimScan
  rw [isKingInCheck_some b2 false _ hfkB2, Bool.not_false]
  exact hscanB2

/-- C1: on a board with exactly one king of each color, applying any move
    returned by `getPossibleMoves` for a piece of color c — via
    `updateGameState` (with its castling rook relocation) followed by
    moving the piece — yields a board on which c is not in check. -/
theorem C1_legal_moves_never_self_check
    (b : Board) (gs : GameState) (fr fc : Fin 8) (p : Piece)
    (wp bq : Fin 8 × Fin 8)
    (hwk : oneKingAt b true wp) (hbk : oneKingAt b false bq)
    (hp : b fr fc = some p)
    (mvs : List (Int × Int)) (hmvs : getPossibleMoves fr fc b gs = some mvs)
    (tr tc : Int) (hm : (tr, tc) ∈ mvs)
    (b2 : Board) (gs2 : GameState)
    (happ : applyMove (fr : Int) (fc : Int) tr tc b gs = some (b2, gs2)) :
    isKingInCheck b2 p.1.isWhite = some false := by
  obtain ⟨raw, castle, hraw, hcas, hfil⟩ :=
    getPossibleMoves_decomp fr fc b gs p mvs hp hmvs
  rw [filterSafe_mem fr fc b p.1.isWhite _ mvs hfil (tr, tc)] at hm
  obtain ⟨hmem, hsim⟩ := hm
  obtain ⟨res, hupd, hb2eq, hgs2⟩ :=
    applyMove_decomp (fr : Int) (fc : Int) tr tc b gs b2 gs2 happ
  obtain ⟨hfrB, htrB⟩ := updateGameState_bounds (fr : Int) (fc : Int) tr tc b gs res hupd
  rw [updateGameState_eq (fr : Int) (fc : Int) tr tc b gs hfrB htrB] at hupd
  injection hupd with hupd
  have hres1 : res.1 =
      (ugsKingStep (fr : Int) (fc : Int) tc (cellAt b (fr : Int) (fc : Int)) b gs).1 :=
    (congrArg Prod.fst hupd).symm
  have hcellp : cellAt b (fr : Int) (fc : Int) = some p := by
    rw [cellAt_coe, hp]
  rcases ugsKingStep_board_cases (fr : Int) (fc : Int) tc
      (cellAt b (fr : Int) (fc : Int)) b gs with
    hid | ⟨hpc, hfr7, hfc4, htc6, heq⟩ | ⟨hpc, hfr7, hfc4, htc2, heq⟩ |
    ⟨hpc, hfr0, hfc4, htc6, heq⟩ | ⟨hpc, hfr0, hfc4, htc2, heq⟩
  · -- no castling side effect: the applied board equals the simulation board
    rw [hid] at hres1
    rw [hres1] at hb2eq
    have : b2 = testBoardMove b fr fc tr tc := by
      rw [hb2eq]
      unfold testBoardMove
      rw [cellAt_coe]
    rw [this]
    exact hsim
  · -- white kingside
    rw [hcellp] at hpc
    injection hpc with hpc
    subst hpc
    subst htc6
    rw [getRaw_some fr fc b (PColor.white, PKind.K) hp] at hraw
    simp only [rawMovesOfKind] at hraw
    injection hraw with hraw
    rcases List.mem_append.1 hmem with hmr | hmc
    · rw [← hraw] at hmr
      have hcol := kingStep_col b PColor.white (fr : Int) (fc : Int) (tr, 6) hmr
      simp only at hcol
      omega
    · obtain ⟨k, q, hks, hqs, hceq⟩ :=
        castleMoves_white (PColor.white, PKind.K) b gs castle rfl rfl hcas
      subst hceq
      rcases List.mem_append.1 hmc with hmk | hmq
      · rcases whiteKingsideCastle_cases b gs k hks with rfl |
          ⟨rfl, hrts, h75, h76, h77, hchk, ha5, ha6⟩
        · cases hmk
        · rw [List.mem_singleton, Prod.mk.injEq] at hmk
          obtain ⟨htr7, -⟩ := hmk
          subst htr7
          rw [heq] at hres1
          rw [hres1] at hb2eq
          exact castle_case_wk b fr fc wp hwk hfr7 hfc4 hp h77 hsim b2 hb2eq
      · rcases whiteQueensideCastle_cases b gs q hqs with rfl |
          ⟨rfl, -, -, -, -, -, -, -, -⟩
        · cases hmq
        · rw [List.mem_singleton, Prod.mk.injEq] at hmq
          omega
  · -- white queenside
    rw [hcellp] at hpc
    injection hpc with hpc
    subst hpc
    subst htc2
    rw [getRaw_some fr fc b (PColor.white, PKind.K) hp] at hraw
    simp only [rawMovesOfKind] at hraw
    injection hraw with hraw
    rcases List.mem_append.1 hmem with hmr | hmc
    · rw [← hraw] at hmr
      have hcol := kingStep_col b PColor.white (fr : Int) (fc : Int) (tr, 2) hmr
      simp only at hcol
      omega
    · obtain ⟨k, q, hks, hqs, hceq⟩ :=
        castleMoves_white (PColor.white, PKind.K) b gs castle rfl rfl hcas
      subst hceq
      rcases List.mem_append.1 hmc with hmk | hmq
      · rcases whiteKingsideCastle_cases b gs k hks with rfl |
          ⟨rfl, -, -, -, -, -, -, -⟩
        · cases hmk
        · rw [List.mem_singleton, Prod.mk.injEq] at hmk
          omega
      · rcases whiteQueensideCastle_cases b gs q hqs with rfl |
          ⟨rfl, hrts, h71, h72, h73, h70, hchk, ha2, ha3⟩
        · cases hmq
        · rw [List.mem_singleton, Prod.mk.injEq] at hmq
          obtain ⟨htr7, -⟩ := hmq
          subst htr7
          rw [heq] at hres1
          rw [hres1] at hb2eq
          exact castle_case_wq b fr fc wp hwk hfr7 hfc4 hp h70 hsim b2 hb2eq
  · -- black kingside
    rw [hcellp] at hpc
    injection hpc with hpc
    subst hpc
    subst htc6
    rw [getRaw_some fr fc b (PColor.black, PKind.K) hp] at hraw
    simp only [rawMovesOfKind] at hraw
    injection hraw with hraw
    rcases List.mem_append.1 hmem with hmr | hmc
    · rw [← hraw] at hmr
      have hcol := kingStep_col b PColor.black (fr : Int) (fc : Int) (tr, 6) hmr
      simp only at hcol
      omega
    · obtain ⟨k, q, hks, hqs, hceq⟩ :=
        castleMoves_black (PColor.black, PKind.K) b gs castle rfl rfl hcas
      subst hceq
      rcases List.mem_append.1 hmc with hmk | hmq
      · rcases blackKingsideCastle_cases b gs k hks with rfl |
          ⟨rfl, hrts, h05, h06, h07, hchk, ha5, ha6⟩
        · cases hmk
        · rw [List.mem_singleton, Prod.mk.injEq] at hmk
          obtain ⟨htr0, -⟩ := hmk
          subst htr0
          rw [heq] at hres1
          rw [hres1] at hb2eq
          exact castle_case_bk b fr fc bq hbk hfr0 hfc4 hp h07 hsim b2 hb2eq
      · rcases blackQueensideCastle_cases b gs q hqs with rfl |
          ⟨rfl, -, -, -, -, -, -, -, -⟩
        · cases hmq
        · rw [List.mem_singleton, Prod.mk.injEq] at hmq
          omega
  · -- black queenside
    rw [hcellp] at hpc
    injection hpc with hpc
    subst hpc
    subst htc2
    rw [getRaw_some fr fc b (PColor.black, PKind.K) hp] at hraw
    simp only [rawMovesOfKind] at hraw
    injection hraw with hraw
    rcases List.mem_append.1 hmem with hmr | hmc
    · rw [← hraw] at hmr
      have hcol := kingStep_col b PColor.black (fr : Int) (fc : Int) (tr, 2) hmr
      simp only at hcol
      omega
    · obtain ⟨k, q, hks, hqs, hceq⟩ :=
        castleMoves_black (PColor.black, PKind.K) b gs castle rfl rfl hcas
      subst hceq
      rcases List.mem_append.1 hmc with hmk | hmq
      · rcases blackKingsideCastle_cases b gs k hks with rfl |
          ⟨rfl, -, -, -, -, -, -, -⟩
        · cases hmk
        · rw [List.mem_singleton, Prod.mk.injEq] at hmk
          omega
      · rcases blackQueensideCastle_cases b gs q hqs with rfl |
          ⟨rfl, hrts, h01, h02, h03, h00, hchk, ha2, ha3⟩
        · cases hmq
        · rw [List.mem_singleton, Prod.mk.injEq] at hmq
          obtain ⟨htr0, -⟩ := hmq
          subst htr0
          rw [heq] at hres1
          rw [hres1] at hb2eq
          exact castle_case_bq b fr fc bq hbk hfr0 hfc4 hp h00 hsim b2 hb2eq

theorem C1_legal_moves_never_self_check_witness :
    isKingInCheck (setCell (setCell c1Board 6 7 (cellAt c1Board 7 7)) 7 7 none)
      true = some false :=
  C1_legal_moves_never_self_check c1Board initialGameState 7 7
    (PColor.white, PKind.K) (7, 7) (0, 0) (by decide) (by decide) (by decide)
    [(7, 6), (6, 6), (6, 7)] (by decide) 6 7 (by decide)
    (setCell (setCell c1Board 6 7 (cellAt c1Board 7 7)) 7 7 none)
    ⟨false, false, true, true⟩ rfl

/-- C2 (amended): a castling destination appears in `getPossibleMoves` for a
    king on its home square exactly when the five stated conditions hold AND
    the simulate-and-discard filter keeps it: placing the king on the
    destination square must not leave it in check. -/
theorem C2_castling_inclusion_amended (b : Board) (gs : GameState)
    (mvs : List (Int × Int)) :
    (b 7 4 = some (PColor.white, PKind.K) →
      getPossibleMoves 7 4 b gs = some mvs →
      (((7 : Int), (6 : Int)) ∈ mvs ↔
        (gs.canWhiteCastleKingside = true ∧
         cellAt b 7 5 = none ∧ cellAt b 7 6 = none ∧
         cellAt b 7 7 = some (PColor.white, PKind.R) ∧
         isKingInCheck b true = some false ∧
         isSquareUnderAttack 7 5 b false = some false ∧
         isSquareUnderAttack 7 6 b false = some false ∧
         isKingInCheck (testBoardMove b 7 4 7 6) true = some false))) ∧
    (b 7 4 = some (PColor.white, PKind.K) →
      getPossibleMoves 7 4 b gs = some mvs →
      (((7 : Int), (2 : Int)) ∈ mvs ↔
        (gs.canWhiteCastleQueenside = true ∧
         cellAt b 7 1 = none ∧ cellAt b 7 2 = none ∧ cellAt b 7 3 = none ∧
         cellAt b 7 0 = some (PColor.white, PKind.R) ∧
         isKingInCheck b true = some false ∧
         isSquareUnderAttack 7 2 b false = some false ∧
         isSquareUnderAttack 7 3 b false = some false ∧
         isKingInCheck (testBoardMove b 7 4 7 2) true = some false))) ∧
    (b 0 4 = some (PColor.black, PKind.K) →
      getPossibleMoves 0 4 b gs = some mvs →
      (((0 : Int), (6 : Int)) ∈ mvs ↔
        (gs.canBlackCastleKingside = true ∧
         cellAt b 0 5 = none ∧ cellAt b 0 6 = none ∧
         cellAt b 0 7 = some (PColor.black, PKind.R) ∧
         isKingInCheck b false = some false ∧
         isSquareUnderAttack 0 5 b true = some false ∧
         isSquareUnderAttack 0 6 b true = some false ∧
         isKingInCheck (testBoardMove b 0 4 0 6) false = some false))) ∧
    (b 0 4 = some (PColor.black, PKind.K) →
      getPossibleMoves 0 4 b gs = some mvs →
      (((0 : Int), (2 : Int)) ∈ mvs ↔
        (gs.canBlackCastleQueenside = true ∧
         cellAt b 0 1 = none ∧ cellAt b 0 2 = none ∧ cellAt b 0 3 = none ∧
         cellAt b 0 0 = some (PColor.black, PKind.R) ∧
         isKingInCheck b false = some false ∧
         isSquareUnderAttack 0 2 b true = some false ∧
         isSquareUnderAttack 0 3 b true = some false ∧
         isKingInCheck (testBoardMove b 0 4 0 2) false = some false))) := by
  refine ⟨?_, ?_, ?_, ?_⟩
  · intro hking hmv
    obtain ⟨raw, castle, hraw, hcas, hfil⟩ :=
      getPossibleMoves_decomp 7 4 b gs (PColor.white, PKind.K) mvs hking hmv
    rw [filterSafe_mem 7 4 b (PColor.white, PKind.K).1.isWhite _ mvs hfil
      ((7 : Int), (6 : Int))]
    constructor
    · rintro ⟨hmem, hsim⟩
      rw [getRaw_some 7 4 b (PColor.white, PKind.K) hking] at hraw
      simp only [rawMovesOfKind] at hraw
      injection hraw with hraw
      rcases List.mem_append.1 hmem with hmr | hmc
      · rw [← hraw] at hmr
        have hcol := kingStep_col b PColor.white _ _ _ hmr
        have h4 : (((4 : Fin 8) : Fin 8) : Int) = 4 := by decide
        simp only at hcol
        omega
      · obtain ⟨k, q, hks, hqs, hceq⟩ :=
          castleMoves_white (PColor.white, PKind.K) b gs castle rfl rfl hcas
        subst hceq
        rcases List.mem_append.1 hmc with hmk | hmq
        · rcases whiteKingsideCastle_cases b gs k hks with rfl |
            ⟨-, hrts, h1, h2, h3, hchk, ha1, ha2⟩
          · cases hmk
          · exact ⟨hrts, h1, h2, h3, hchk, ha1, ha2, hsim⟩
        · rcases whiteQueensideCastle_cases b gs q hqs with rfl |
            ⟨rfl, -, -, -, -, -, -, -, -⟩
          · cases hmq
          · rw [List.mem_singleton, Prod.mk.injEq] at hmq
            omega
    · rintro ⟨hrts, h1, h2, h3, hchk, ha1, ha2, hsimc⟩
      refine ⟨?_, hsimc⟩
      apply List.mem_append.2
      right
      obtain ⟨k, q, hks, hqs, hceq⟩ :=
        castleMoves_white (PColor.white, PKind.K) b gs castle rfl rfl hcas
      subst hceq
      apply List.mem_append.2
      left
      have hpos := whiteKingsideCastle_pos b gs hrts h1 h2 h3 hchk ha1 ha2
      rw [hpos] at hks
      injection hks with hks
      rw [← hks]
      exact List.mem_singleton.2 rfl
  · intro hking hmv
    obtain ⟨raw, castle, hraw, hcas, hfil⟩ :=
      getPossibleMoves_decomp 7 4 b gs (PColor.white, PKind.K) mvs hking hmv
    rw [filterSafe_mem 7 4 b (PColor.white, PKind.K).1.isWhite _ mvs hfil
      ((7 : Int), (2 : Int))]
    constructor
    · rintro ⟨hmem, hsim⟩
      rw [getRaw_some 7 4 b (PColor.white, PKind.K) hking] at hraw
      simp only [rawMovesOfKind] at hraw
      injection hraw with hraw
      rcases List.mem_append.1 hmem with hmr | hmc
      · rw [← hraw] at hmr
        have hcol := kingStep_col b PColor.white _ _ _ hmr
        have h4 : (((4 : Fin 8) : Fin 8) : Int) = 4 := by decide
        simp only at hcol
        omega
      · obtain ⟨k, q, hks, hqs, hceq⟩ :=
          castleMoves_white (PColor.white, PKind.K) b gs castle rfl rfl hcas
        subst hceq
        rcases List.mem_append.1 hmc with hmk | hmq
        · rcases whiteKingsideCastle_cases b gs k hks with rfl |
            ⟨rfl, -, -, -, -, -, -, -⟩
          · cases hmk
          · rw [List.mem_singleton, Prod.mk.injEq] at hmk
            omega
        · rcases whiteQueensideCastle_cases b gs q hqs with rfl |
            ⟨-, hrts, h1, h2, h3, h4r, hchk, ha1, ha2⟩
          · cases hmq
          · exact ⟨hrts, h1, h2, h3, h4r, hchk, ha1, ha2, hsim⟩
    · rintro ⟨hrts, h1, h2, h3, h4r, hchk, ha1, ha2, hsimc⟩
      refine ⟨?_, hsimc⟩
      apply List.mem_append.2
      right
      obtain ⟨k, q, hks, hqs, hceq⟩ :=
        castleMoves_white (PColor.white, PKind.K) b gs castle rfl rfl hcas
      subst hceq
      apply List.mem_append.2
      right
      have hpos := whiteQueensideCastle_pos b gs hrts h1 h2 h3 h4r hchk ha1 ha2
      rw [hpos] at hqs
      injection hqs with hqs
      rw [← hqs]
      exact List.mem_singleton.2 rfl
  · intro hking hmv
    obtain ⟨raw, castle, hraw, hcas, hfil⟩ :=
      getPossibleMoves_decomp 0 4 b gs (PColor.black, PKind.K) mvs hking hmv
    rw [filterSafe_mem 0 4 b (PColor.black, PKind.K).1.isWhite _ mvs hfil
      ((0 : Int), (6 : Int))]
    constructor
    · rintro ⟨hmem, hsim⟩
      rw [getRaw_some 0 4 b (PColor.black, PKind.K) hking] at hraw
      simp only [rawMovesOfKind] at hraw
      injection hraw with hraw
      rcases List.mem_append.1 hmem with hmr | hmc
      · rw [← hraw] at hmr
        have hcol := kingStep_col b PColor.black _ _ _ hmr
        have h4 : (((4 : Fin 8) : Fin 8) : Int) = 4 := by decide
        simp only at hcol
        omega
      · obtain ⟨k, q, hks, hqs, hceq⟩ :=
          castleMoves_black (PColor.black, PKind.K) b gs castle rfl rfl hcas
        subst hceq
        rcases List.mem_append.1 hmc with hmk | hmq
        · rcases blackKingsideCastle_cases b gs k hks with rfl |
            ⟨-, hrts, h1, h2, h3, hchk, ha1, ha2⟩
          · cases hmk
          · exact ⟨hrts, h1, h2, h3, hchk, ha1, ha2, hsim⟩
        · rcases blackQueensideCastle_cases b gs q hqs with rfl |
            ⟨rfl, -, -, -, -, -, -, -, -⟩
          · cases hmq
          · rw [List.mem_singleton, Prod.mk.injEq] at hmq
            omega
    · rintro ⟨hrts, h1, h2, h3, hchk, ha1, ha2, hsimc⟩
      refine ⟨?_, hsimc⟩
      apply List.mem_append.2
      right
      obtain ⟨k, q, hks, hqs, hceq⟩ :=
        castleMoves_black (PColor.black, PKind.K) b gs castle rfl rfl hcas
      subst hceq
      apply List.mem_append.2
      left
      have hpos := blackKingsideCastle_pos b gs hrts h1 h2 h3 hchk ha1 ha2
      rw [hpos] at hks
      injection hks with hks
      rw [← hks]
      exact List.mem_singleton.2 rfl
  · intro hking hmv
    obtain ⟨raw, castle, hraw, hcas, hfil⟩ :=
      getPossibleMoves_decomp 0 4 b gs (PColor.black, PKind.K) mvs hking hmv
    rw [filterSafe_mem 0 4 b (PColor.black, PKind.K).1.isWhite _ mvs hfil
      ((0 : Int), (2 : Int))]
    constructor
    · rintro ⟨hmem, hsim⟩
      rw [getRaw_some 0 4 b (PColor.black, PKind.K) hking] at hraw
      simp only [rawMovesOfKind] at hraw
      injection hraw with hraw
      rcases List.mem_append.1 hmem with hmr | hmc
      · rw [← hraw] at hmr
        have hcol := kingStep_col b PColor.black _ _ _ hmr
        have h4 : (((4 : Fin 8) : Fin 8) : Int) = 4 := by decide
        simp only at hcol
        omega
      · obtain ⟨k, q, hks, hqs, hceq⟩ :=
          castleMoves_black (PColor.black, PKind.K) b gs castle rfl rfl hcas
        subst hceq
        rcases List.mem_append.1 hmc with hmk | hmq
        · rcases blackKingsideCastle_cases b gs k hks with rfl |
            ⟨rfl, -, -, -, -, -, -, -⟩
          · cases hmk
          · rw [List.mem_singleton, Prod.mk.injEq] at hmk
            omega
        · rcases blackQueensideCastle_cases b gs q hqs with rfl |
            ⟨-, hrts, h1, h2, h3, h4r, hchk, ha1, ha2⟩
          · cases hmq
          · exact ⟨hrts, h1, h2, h3, h4r, hchk, ha1, ha2, hsim⟩
    · rintro ⟨hrts, h1, h2, h3, h4r, hchk, ha1, ha2, hsimc⟩
      refine ⟨?_, hsimc⟩
      apply List.mem_append.2
      right
      obtain ⟨k, q, hks, hqs, hceq⟩ :=
        castleMoves_black (PColor.black, PKind.K) b gs castle rfl rfl hcas
      subst hceq
      apply List.mem_append.2
      right
      have hpos := blackQueensideCastle_pos b gs hrts h1 h2 h3 h4r hchk ha1 ha2
      rw [hpos] at hqs
      injection hqs with hqs
      rw [← hqs]
      exact List.mem_singleton.2 rfl

/-- C2 counterexample: on `c2Board` (white king e1, white rook h1, black king a8,
    black pawn h2) all five conditions named by the claim hold — kingside right
    set, f1/g1 empty, rook on h1, king not in check, f1 and g1 not attacked
    (the black pawn's diagonal to g1 is not registered because g1 is empty) —
    yet `(7,6)` is absent from the generated moves: the simulated king-on-g1
    board puts the king adjacent to the pawn whose capture then registers,
    so the simulate-and-discard filter removes the castle. -/
theorem C2_castling_counterexample :
    (initialGameState.canWhiteCastleKingside = true ∧
     cellAt c2Board 7 5 = none ∧ cellAt c2Board 7 6 = none ∧
     cellAt c2Board 7 7 = some (PColor.white, PKind.R) ∧
     isKingInCheck c2Board true = some false ∧
     isSquareUnderAttack 7 5 c2Board false = some false ∧
     isSquareUnderAttack 7 6 c2Board false = some false) ∧
    getPossibleMoves 7 4 c2Board initialGameState =
      some [(7, 5), (7, 3), (6, 3), (6, 4), (6, 5)] ∧
    ((7 : Int), (6 : Int)) ∉
      ([(7, 5), (7, 3), (6, 3), (6, 4), (6, 5)] : List (Int × Int)) := by
  decide

theorem C2_castling_inclusion_amended_witness :
    ((7 : Int), (6 : Int)) ∈
      ([(7, 5), (7, 3), (6, 3), (6, 4), (6, 5), (7, 6), (7, 2)] :
        List (Int × Int)) :=
  ((C2_castling_inclusion_amended castleReadyBoard initialGameState
      [(7, 5), (7, 3), (6, 3), (6, 4), (6, 5), (7, 6), (7, 2)]).1
    (by decide) (by decide)).2 (by decide)

lemma collectBlack_cons (b : Board) (gs : GameState) (sq : Fin 8 × Fin 8)
    (rest : List (Fin 8 × Fin 8)) :
    collectBlack b gs (sq :: rest) =
      (b sq.1 sq.2).elim (collectBlack b gs rest) (fun p =>
        if p.1.isWhite then collectBlack b gs rest
        else do
          let mvs ← getPossibleMoves sq.1 sq.2 b gs
          let tail ← collectBlack b gs rest
          pure (if mvs = [] then tail else ⟨sq.1, sq.2, p, mvs⟩ :: tail)) := rfl

/-- Every entry of the `blackPieces` array really is a black piece on the
    board whose legal move list the enumeration computed. -/
lemma collectBlack_mem (b : Board) (gs : GameState) :
    ∀ (sqs : List (Fin 8 × Fin 8)) (L : List BlackEntry),
    collectBlack b gs sqs = some L → ∀ e ∈ L,
      b e.row e.col = some e.piece ∧ e.piece.1.isWhite = false ∧
      getPossibleMoves e.row e.col b gs = some e.moves := by
  intro sqs
  induction sqs with
  | nil =>
    intro L h e he
    injection h with h
    subst h
    cases he
  | cons sq rest ih =>
    intro L h e he
    rw [collectBlack_cons] at h
    cases hc : b sq.1 sq.2 with
    | none =>
      rw [hc] at h
      exact ih L h e he
    | some p =>
      rw [hc] at h
      simp only [Option.elim] at h
      by_cases hw : p.1.isWhite
      · rw [if_pos hw] at h
        exact ih L h e he
      · rw [if_neg hw] at h
        cases hm : getPossibleMoves sq.1 sq.2 b gs with
        | none =>
          rw [hm] at h
          simp at h
        | some mvs =>
          rw [hm] at h
          cases ht : collectBlack b gs rest with
          | none =>
            rw [ht] at h
            simp at h
          | some tail =>
            rw [ht] at h
            simp only [Option.some_bind, Option.pure_def] at h
            injection h with h
            by_cases hnil : mvs = []
            · rw [if_pos hnil] at h
              subst h
              exact ih tail ht e he
            · rw [if_neg hnil] at h
              subst h
              rcases List.mem_cons.1 he with he | he
              · subst he
                refine ⟨hc, ?_, hm⟩
                simp only [Bool.not_eq_true] at hw
                exact hw
              · exact ih tail ht e he

/-- C8: when the black-piece enumeration finds exactly one piece with legal
    moves and that piece has exactly one legal move, `makeComputerMove` — for
    every admissible outcome of the two random draws — returns exactly that
    move applied (via `applyMove`, followed by the auto-promotion check); and
    if the moved piece is a black pawn landing on row 7, the destination cell
    of the returned board holds a black queen. -/
theorem C8_unique_move_applied (b : Board) (gs : GameState) (entry : BlackEntry)
    (mv : Int × Int) (i1 i2 : Nat)
    (hcol : collectBlack b gs allSquares = some [entry])
    (hmv : entry.moves = [mv]) (h1 : i1 < 1) (h2 : i2 < 1) :
    makeComputerMove b gs i1 i2 =
      (applyMove (entry.row : Int) (entry.col : Int) mv.1 mv.2 b gs).map
        (fun res =>
          (if canPromotePawn mv.1 mv.2 res.1 then
             promotePawn mv.1 mv.2 res.1 PKind.Q
           else res.1, res.2)) ∧
    (∀ b1 gs1, makeComputerMove b gs i1 i2 = some (b1, gs1) →
      entry.piece = (PColor.black, PKind.P) → mv.1 = 7 →
      cellAt b1 mv.1 mv.2 = some (PColor.black, PKind.Q)) := by
  have hi1 : i1 = 0 := Nat.lt_one_iff.1 h1
  have hi2 : i2 = 0 := Nat.lt_one_iff.1 h2
  subst hi1
  subst hi2
  have hgd : entry.moves.getD 0 ((0 : Int), (0 : Int)) = mv := by
    rw [hmv]
    exact List.getD_cons_zero
  have hA : makeComputerMove b gs 0 0 =
      (applyMove (entry.row : Int) (entry.col : Int) mv.1 mv.2 b gs).map
        (fun res =>
          (if canPromotePawn mv.1 mv.2 res.1 then
             promotePawn mv.1 mv.2 res.1 PKind.Q
           else res.1, res.2)) := by
    unfold makeComputerMove
    rw [hcol]
    simp only [Option.bind_eq_bind, Option.some_bind]
    rw [if_neg (List.cons_ne_nil entry [])]
    rw [List.getD_cons_zero, hgd]
    cases happ : applyMove (entry.row : Int) (entry.col : Int) mv.1 mv.2 b gs with
    | none => rfl
    | some res => rfl
  refine ⟨hA, ?_⟩
  intro b1 gs1 hsome hpawn hrow
  -- facts about the unique entry
  obtain ⟨hbe, hbw, hgp⟩ :=
    collectBlack_mem b gs allSquares [entry] hcol entry (List.mem_singleton.2 rfl)
  have hmem : mv ∈ entry.moves := by
    rw [hmv]
    exact List.mem_singleton.2 rfl
  obtain ⟨raw, castle, hraw, hcas, hfil⟩ :=
    getPossibleMoves_decomp entry.row entry.col b gs entry.piece entry.moves hbe hgp
  have hnk : entry.piece.2 ≠ PKind.K := by
    rw [hpawn]
    decide
  rw [castleMoves_nonking entry.piece b gs hnk] at hcas
  injection hcas with hcas
  subst hcas
  obtain ⟨hmemrc, -⟩ :=
    (filterSafe_mem entry.row entry.col b entry.piece.1.isWhite
      (raw ++ []) entry.moves hfil mv).1 hmem
  rw [List.append_nil] at hmemrc
  have hne := rawMoves_ne_origin entry.row entry.col b raw hraw mv hmemrc
  have hbnd := rawMoves_bounds entry.row entry.col b raw hraw mv hmemrc
  obtain ⟨hb1i, hb2i, hb3i, hb4i⟩ := hbnd
  -- the origin cell
  have hpc : cellAt b (entry.row : Int) (entry.col : Int) =
      some (PColor.black, PKind.P) := by
    rw [cellAt_coe, hbe, hpawn]
  -- updateGameState succeeds and leaves the board untouched (no king moved)
  have hfr := fin8_int_bounds entry.row
  have hupd0 : updateGameState (entry.row : Int) (entry.col : Int)
      mv.1 mv.2 b gs = some (b, ugsCaptureStep mv.1 mv.2 (cellAt b mv.1 mv.2)
        (ugsRookStep (entry.row : Int) (entry.col : Int)
          (cellAt b (entry.row : Int) (entry.col : Int)) gs)) := by
    unfold updateGameState
    rw [if_pos hfr]
    dsimp only
    rw [if_pos ⟨hb1i, hb2i⟩]
    have hks : ugsKingStep (entry.row : Int) (entry.col : Int) mv.2
        (cellAt b (entry.row : Int) (entry.col : Int)) b gs = (b, gs) := by
      rw [hpc]
      unfold ugsKingStep
      rw [if_neg (by decide), if_neg (by decide)]
    rw [hks]
  obtain ⟨g2, hupd⟩ : ∃ g2, updateGameState (entry.row : Int) (entry.col : Int)
      mv.1 mv.2 b gs = some (b, g2) := ⟨_, hupd0⟩
  have happ : applyMove (entry.row : Int) (entry.col : Int) mv.1 mv.2 b gs =
      some (setCell (setCell b mv.1 mv.2
              (cellAt b (entry.row : Int) (entry.col : Int)))
            (entry.row : Int) (entry.col : Int) none, g2) := by
    unfold applyMove
    rw [hupd]
    rfl
  rw [hA, happ, Option.map_some'] at hsome
  injection hsome with hsome
  rw [Prod.mk.injEq] at hsome
  obtain ⟨hb1, -⟩ := hsome
  -- the destination of the applied board holds the moved pawn
  have hcd : cellAt (setCell (setCell b mv.1 mv.2
        (cellAt b (entry.row : Int) (entry.col : Int)))
      (entry.row : Int) (entry.col : Int) none) mv.1 mv.2 =
      some (PColor.black, PKind.P) := by
    obtain ⟨i, j, hi, hj, hC⟩ :=
      cellAt_eq_of_inB _ mv.1 mv.2 ⟨hb1i, hb2i, hb3i, hb4i⟩
    rw [hC]
    rw [setCell_eval_ne _ _ _ _ i j (by
      rintro ⟨e1, e2⟩
      refine hne (Prod.ext ?_ ?_)
      · rw [← hi]
        exact e1
      · rw [← hj]
        exact e2), setCell_eval_eq _ _ _ _ i j hi hj, hpc]
  have hcp : canPromotePawn mv.1 mv.2 (setCell (setCell b mv.1 mv.2
        (cellAt b (entry.row : Int) (entry.col : Int)))
      (entry.row : Int) (entry.col : Int) none) = true := by
    unfold canPromotePawn
    rw [hcd]
    simp only [Option.elim]
    rw [if_pos (by trivial), hrow]
    decide
  rw [← hb1, if_pos hcp]
  unfold promotePawn
  rw [hcd]
  simp only [Option.elim]
  rw [if_pos (by trivial)]
  obtain ⟨i, j, hi, hj, hC⟩ :=
    cellAt_eq_of_inB _ mv.1 mv.2 ⟨hb1i, hb2i, hb3i, hb4i⟩
  rw [hC, setCell_eval_eq _ _ _ _ i j hi hj]

theorem C8_unique_move_applied_witness :
    makeComputerMove c8Board initialGameState 0 0 =
      (applyMove ((0 : Fin 8) : Int) ((0 : Fin 8) : Int) (1 : Int) (0 : Int)
          c8Board initialGameState).map
        (fun res =>
          (if canPromotePawn 1 0 res.1 then
             promotePawn 1 0 res.1 PKind.Q
           else res.1, res.2)) :=
  (C8_unique_move_applied c8Board initialGameState
      ⟨0, 0, (PColor.black, PKind.K), [(1, 0)]⟩ (1, 0) 0 0
      (by decide) rfl (by decide) (by decide)).1
